import Mathlib

/-!
Verification of the adaptive quadrature header (`quadrature.hpp`).

The header defines two adaptive integrators, `Quadrature::Simpson` and
`Quadrature::Lobatto`, over an extended-precision floating type `Real`
(`std::float128_t`, falling back to `long double`).  We shallowly embed the
numeric type as exact rationals extended with signed infinity and a NaN
sentinel; finite arithmetic is exact except that results whose magnitude
exceeds an overflow threshold become signed infinity, mirroring IEEE
overflow.  Non-finite values propagate through arithmetic exactly as IEEE
arithmetic propagates them (any operation with a NaN operand is NaN,
`∞ − ∞` and `0 · ∞` are NaN, comparisons involving NaN are false).
The recursion of both integrators is depth bounded; we realise it
structurally on a fuel argument that equals `max_depth + 1 - depth`, the
exact remaining depth budget, so that every definition is executable.
-/

namespace Quadrature

/-- Model of the `Real` floating type of the header: a finite rational,
a signed infinity, or the quiet NaN sentinel. -/
inductive FReal where
  | fin (q : ℚ)
  | inf (pos : Bool)
  | nan
deriving DecidableEq, Repr

/-- Overflow threshold of the model: finite results of magnitude above this
become signed infinity, as IEEE arithmetic overflows to infinity.  The value
is `2^16384`, standing for the largest magnitude of `std::float128_t`. -/
@[irreducible] def maxMagnitude : ℚ := ((2 ^ 16384 : ℕ) : ℚ)

/-- Build a finite value, overflowing to signed infinity above the threshold. -/
def mkF (q : ℚ) : FReal :=
  if maxMagnitude < q then .inf true
  else if q < -maxMagnitude then .inf false
  else .fin q

/-- Negation. -/
def FReal.neg : FReal → FReal
  | .fin q => .fin (-q)
  | .inf p => .inf (!p)
  | .nan => .nan

/-- Addition with IEEE non-finite propagation: NaN absorbs, opposite
infinities give NaN, an infinity absorbs finite values. -/
def FReal.add : FReal → FReal → FReal
  | .nan, _ => .nan
  | _, .nan => .nan
  | .inf p, .inf q => if p = q then .inf p else .nan
  | .inf p, .fin _ => .inf p
  | .fin _, .inf p => .inf p
  | .fin a, .fin b => mkF (a + b)

/-- Subtraction, as addition of the negation. -/
def FReal.sub (x y : FReal) : FReal := x.add y.neg

/-- Multiplication with IEEE non-finite propagation: NaN absorbs,
`0 · ∞` is NaN, signs of infinities multiply. -/
def FReal.mul : FReal → FReal → FReal
  | .nan, _ => .nan
  | _, .nan => .nan
  | .inf p, .inf q => .inf (p == q)
  | .inf p, .fin b => if b = 0 then .nan else .inf (p == decide (0 < b))
  | .fin a, .inf p => if a = 0 then .nan else .inf (p == decide (0 < a))
  | .fin a, .fin b => mkF (a * b)

/-- Division with IEEE non-finite propagation: NaN absorbs, `∞ / ∞` is NaN,
a finite value over infinity is zero, `x / 0` is signed infinity for
`x ≠ 0` and NaN for `0 / 0` (the divisor `0` is treated as `+0`). -/
def FReal.div : FReal → FReal → FReal
  | .nan, _ => .nan
  | _, .nan => .nan
  | .inf _, .inf _ => .nan
  | .inf p, .fin b => if b = 0 then .inf p else .inf (p == decide (0 < b))
  | .fin _, .inf _ => .fin 0
  | .fin a, .fin b =>
      if b = 0 then (if a = 0 then .nan else .inf (decide (0 < a)))
      else mkF (a / b)

/-- Absolute value (`std::abs`): `|±∞| = +∞`, `|NaN| = NaN`. -/
def FReal.abs : FReal → FReal
  | .fin q => .fin |q|
  | .inf _ => .inf true
  | .nan => .nan

/-- Strict comparison (`<` on the floating type): every comparison
involving NaN is false. -/
def FReal.blt : FReal → FReal → Bool
  | .nan, _ => false
  | _, .nan => false
  | .fin a, .fin b => decide (a < b)
  | .fin _, .inf p => p
  | .inf p, .fin _ => !p
  | .inf p, .inf q => !p && q

/-- Propositional form of the strict comparison. -/
def FReal.lt (x y : FReal) : Prop := x.blt y = true

instance (x y : FReal) : Decidable (x.lt y) :=
  inferInstanceAs (Decidable (x.blt y = true))

/-- Finiteness test (`std::isfinite`). -/
def FReal.isFinite : FReal → Bool
  | .fin _ => true
  | _ => false

/-- `std::max` on the floating type: `(a < b) ? b : a`. -/
def FReal.maxF (x y : FReal) : FReal := if x.blt y then y else x

instance : Add FReal := ⟨FReal.add⟩
instance : Sub FReal := ⟨FReal.sub⟩
instance : Mul FReal := ⟨FReal.mul⟩
instance : Div FReal := ⟨FReal.div⟩
instance : Neg FReal := ⟨FReal.neg⟩

/-- `numeric_epsilon`: machine epsilon of the extended type
(`std::numeric_limits<Real>::epsilon()`, `2^-112` for `float128`). -/
def numericEpsilon : FReal := .fin (1 / 2 ^ 112)

/-- `numeric_interval`: smallest interval the integrators subdivide
(`std::numeric_limits<double>::epsilon()`, `2^-52`). -/
def numericInterval : FReal := .fin (1 / 2 ^ 52)

/-- `NaN` constant of the header. -/
def NaN : FReal := .nan

/-- The `Data` record of `Simpson`: a sample point `x`, its value `y = f(x)`,
and the three-point Simpson area of the sub-interval centred on it. -/
structure SData where
  x : FReal
  y : FReal
  area : FReal
deriving DecidableEq, Repr

/-- The `evaluate` lambda of `Simpson`: sample the midpoint of
`[start.x, end.x]` and attach the three-point Simpson area
`|end.x - start.x| * (start.y + 4*middle.y + end.y) / 6`. -/
def sEvaluate (f : FReal → FReal) (s e : SData) : SData :=
  let mx := (s.x + e.x) / .fin 2
  let my := f mx
  ⟨mx, my, FReal.abs (e.x - s.x) * (s.y + .fin 4 * my + e.y) / .fin 6⟩

/-- The Lyness error estimate of a Simpson refinement step:
`(left.area + right.area - middle.area) / 15`. -/
def sError (f : FReal → FReal) (s m e : SData) : FReal :=
  ((sEvaluate f s m).area + (sEvaluate f m e).area - m.area) / .fin 15

/-- The recursive lambda of `Simpson`, realised structurally on a fuel
argument.  At every call site the fuel equals `maxDepth + 1 - depth`, the
remaining depth budget, so the zero-fuel recursion branch (which yields
`FReal.nan` below) is unreachable: with zero fuel `maxDepth < depth + 1`
holds and the depth-exhaustion branch fires first. -/
def simpsonRecAux (f : FReal → FReal) (maxDepth : Nat) (fuel : Nat)
    (s m e : SData) (eps : FReal) (depth : Nat) : FReal :=
  match fuel with
  | 0 =>
    if eps.lt numericEpsilon ∨ (FReal.abs (e.x - s.x)).lt numericInterval then m.area
    else
      let l := sEvaluate f s m
      let r := sEvaluate f m e
      if l.y.isFinite = false ∨ r.y.isFinite = false then FReal.nan
      else
        let err := (l.area + r.area - m.area) / .fin 15
        if (FReal.abs err).lt eps ∨ maxDepth < depth + 1 then l.area + r.area + err
        else FReal.nan
  | fuel + 1 =>
    if eps.lt numericEpsilon ∨ (FReal.abs (e.x - s.x)).lt numericInterval then m.area
    else
      let l := sEvaluate f s m
      let r := sEvaluate f m e
      if l.y.isFinite = false ∨ r.y.isFinite = false then FReal.nan
      else
        let err := (l.area + r.area - m.area) / .fin 15
        if (FReal.abs err).lt eps ∨ maxDepth < depth + 1 then l.area + r.area + err
        else
          simpsonRecAux f maxDepth fuel s l m (eps / .fin 2) (depth + 1) +
          simpsonRecAux f maxDepth fuel m r e (eps / .fin 2) (depth + 1)

/-- The recursive lambda of `Simpson` at its exact remaining depth budget. -/
def simpsonRec (f : FReal → FReal) (maxDepth : Nat) (s m e : SData)
    (eps : FReal) (depth : Nat) : FReal :=
  simpsonRecAux f maxDepth (maxDepth + 1 - depth) s m e eps depth

/-- `Quadrature::Simpson`: sort the bounds, clamp `max_depth` to 22 and
`epsilon` to at least `512 * numeric_epsilon`, sample both bounds and the
midpoint, return NaN if any of the three samples is non-finite, and
otherwise run the adaptive refinement from depth 0. -/
def Simpson (f : FReal → FReal) (a0 b0 : FReal) (aEpsilon : FReal)
    (aMaxDepth : Nat) : FReal :=
  let a := if b0.lt a0 then b0 else a0
  let b := if b0.lt a0 then a0 else b0
  let maxDepth := min aMaxDepth 22
  let epsilon := FReal.maxF aEpsilon (.fin 512 * numericEpsilon)
  let s : SData := ⟨a, f a, .fin 0⟩
  let e : SData := ⟨b, f b, .fin 0⟩
  let m := sEvaluate f s e
  if s.y.isFinite = false ∨ e.y.isFinite = false ∨ m.y.isFinite = false then FReal.nan
  else simpsonRec f maxDepth s m e epsilon 0

/-- Values of the integrand sampled by the recursive lambda of `Simpson`
(each refinement step samples the two quarter points). -/
def simpsonRecSamplesAux (f : FReal → FReal) (maxDepth : Nat) (fuel : Nat)
    (s m e : SData) (eps : FReal) (depth : Nat) : List FReal :=
  match fuel with
  | 0 =>
    if eps.lt numericEpsilon ∨ (FReal.abs (e.x - s.x)).lt numericInterval then []
    else [(sEvaluate f s m).y, (sEvaluate f m e).y]
  | fuel + 1 =>
    if eps.lt numericEpsilon ∨ (FReal.abs (e.x - s.x)).lt numericInterval then []
    else
      let l := sEvaluate f s m
      let r := sEvaluate f m e
      if l.y.isFinite = false ∨ r.y.isFinite = false then [l.y, r.y]
      else if (FReal.abs (sError f s m e)).lt eps ∨ maxDepth < depth + 1 then [l.y, r.y]
      else
        l.y :: r.y ::
          (simpsonRecSamplesAux f maxDepth fuel s l m (eps / .fin 2) (depth + 1) ++
           simpsonRecSamplesAux f maxDepth fuel m r e (eps / .fin 2) (depth + 1))

/-- Values of the integrand sampled by a full run of `Simpson`: the two
bounds, the midpoint, and every quarter point sampled by the recursion. -/
def SimpsonSamples (f : FReal → FReal) (a0 b0 : FReal) (aEpsilon : FReal)
    (aMaxDepth : Nat) : List FReal :=
  let a := if b0.lt a0 then b0 else a0
  let b := if b0.lt a0 then a0 else b0
  let maxDepth := min aMaxDepth 22
  let epsilon := FReal.maxF aEpsilon (.fin 512 * numericEpsilon)
  let s : SData := ⟨a, f a, .fin 0⟩
  let e : SData := ⟨b, f b, .fin 0⟩
  let m := sEvaluate f s e
  s.y :: e.y :: m.y ::
    (if s.y.isFinite = false ∨ e.y.isFinite = false ∨ m.y.isFinite = false then []
     else simpsonRecSamplesAux f maxDepth (maxDepth + 1) s m e epsilon 0)

/-- Number of integrand evaluations performed by the recursive lambda of
`Simpson` (two fresh quarter-point samples per refinement step). -/
def simpsonRecCountAux (f : FReal → FReal) (maxDepth : Nat) (fuel : Nat)
    (s m e : SData) (eps : FReal) (depth : Nat) : Nat :=
  match fuel with
  | 0 =>
    if eps.lt numericEpsilon ∨ (FReal.abs (e.x - s.x)).lt numericInterval then 0
    else 2
  | fuel + 1 =>
    if eps.lt numericEpsilon ∨ (FReal.abs (e.x - s.x)).lt numericInterval then 0
    else
      let l := sEvaluate f s m
      let r := sEvaluate f m e
      if l.y.isFinite = false ∨ r.y.isFinite = false then 2
      else if (FReal.abs (sError f s m e)).lt eps ∨ maxDepth < depth + 1 then 2
      else
        2 + simpsonRecCountAux f maxDepth fuel s l m (eps / .fin 2) (depth + 1) +
          simpsonRecCountAux f maxDepth fuel m r e (eps / .fin 2) (depth + 1)

/-- Total number of integrand evaluations of a full run of `Simpson`:
three up-front samples plus the recursion's quarter-point samples. -/
def SimpsonCount (f : FReal → FReal) (a0 b0 : FReal) (aEpsilon : FReal)
    (aMaxDepth : Nat) : Nat :=
  let a := if b0.lt a0 then b0 else a0
  let b := if b0.lt a0 then a0 else b0
  let maxDepth := min aMaxDepth 22
  let epsilon := FReal.maxF aEpsilon (.fin 512 * numericEpsilon)
  let s : SData := ⟨a, f a, .fin 0⟩
  let e : SData := ⟨b, f b, .fin 0⟩
  let m := sEvaluate f s e
  3 + (if s.y.isFinite = false ∨ e.y.isFinite = false ∨ m.y.isFinite = false then 0
       else simpsonRecCountAux f maxDepth (maxDepth + 1) s m e epsilon 0)

/-- The `Data` record of `Lobatto`: a sample point and its value. -/
structure LData where
  x : FReal
  y : FReal
deriving DecidableEq, Repr

/-- Half-width `h = (end.x - start.x) / 2` of a Lobatto sub-interval. -/
def lobH (s e : LData) : FReal := (e.x - s.x) / .fin 2

/-- Midpoint `(start.x + end.x) / 2` of a Lobatto sub-interval (point 4). -/
def lobMid (s e : LData) : FReal := (s.x + e.x) / .fin 2

/-- Sample point 2 of a Lobatto step, at offset `-node_kronrod * h` from the
midpoint.  `nk` is the value of the `node_kronrod` constant, which the
header computes as `std::sqrt(Real(2)/Real(3))`; being irrational it is a
parameter of the embedding. -/
def lobP2 (f : FReal → FReal) (nk : ℚ) (s e : LData) : LData :=
  let x := lobMid s e - .fin nk * lobH s e
  ⟨x, f x⟩

/-- Sample point 3, at offset `-node_lobatto * h` from the midpoint.  `nl`
is the value of the `node_lobatto` constant, `std::sqrt(Real(1)/Real(5))`
in the header. -/
def lobP3 (f : FReal → FReal) (nl : ℚ) (s e : LData) : LData :=
  let x := lobMid s e - .fin nl * lobH s e
  ⟨x, f x⟩

/-- Sample point 4, the midpoint. -/
def lobP4 (f : FReal → FReal) (s e : LData) : LData :=
  ⟨lobMid s e, f (lobMid s e)⟩

/-- Sample point 5, at offset `+node_lobatto * h` from the midpoint. -/
def lobP5 (f : FReal → FReal) (nl : ℚ) (s e : LData) : LData :=
  let x := lobMid s e + .fin nl * lobH s e
  ⟨x, f x⟩

/-- Sample point 6, at offset `+node_kronrod * h` from the midpoint. -/
def lobP6 (f : FReal → FReal) (nk : ℚ) (s e : LData) : LData :=
  let x := lobMid s e + .fin nk * lobH s e
  ⟨x, f x⟩

/-- The seven-point area approximation of a Lobatto step:
`(h/1470) * ((y1+y7)*77 + (y2+y6)*432 + (y3+y5)*625 + y4*672)`. -/
def lobAreaK (f : FReal → FReal) (nl nk : ℚ) (s e : LData) : FReal :=
  (lobH s e / .fin 1470) *
    ((s.y + e.y) * .fin 77 + ((lobP2 f nk s e).y + (lobP6 f nk s e).y) * .fin 432 +
      ((lobP3 f nl s e).y + (lobP5 f nl s e).y) * .fin 625 + (lobP4 f s e).y * .fin 672)

/-- The four-point area approximation of a Lobatto step:
`(h/6) * (y1 + y7 + (y3+y5)*5)`. -/
def lobAreaL (f : FReal → FReal) (nl : ℚ) (s e : LData) : FReal :=
  (lobH s e / .fin 6) * (s.y + e.y + ((lobP3 f nl s e).y + (lobP5 f nl s e).y) * .fin 5)

/-- The recursive lambda of `Lobatto`, realised structurally on a fuel
argument.  At every call site the fuel equals `maxDepth + 1 - depth`, so
the zero-fuel recursion branch (yielding `FReal.nan` below) is unreachable:
with zero fuel `maxDepth < depth + 1` holds and the depth-exhaustion branch
fires first.  The captured tolerance `eps` is passed unchanged to every
recursive call. -/
def lobattoRecAux (f : FReal → FReal) (nl nk : ℚ) (eps : FReal)
    (maxDepth : Nat) (fuel : Nat) (s e : LData) (depth : Nat) : FReal :=
  match fuel with
  | 0 =>
    if (lobAreaK f nl nk s e).isFinite = false then FReal.nan
    else if (FReal.abs (lobH s e)).lt numericInterval ∨ maxDepth < depth + 1 then
      lobAreaK f nl nk s e
    else if (FReal.abs (lobAreaK f nl nk s e - lobAreaL f nl s e)).lt eps then
      lobAreaK f nl nk s e
    else FReal.nan
  | fuel + 1 =>
    if (lobAreaK f nl nk s e).isFinite = false then FReal.nan
    else if (FReal.abs (lobH s e)).lt numericInterval ∨ maxDepth < depth + 1 then
      lobAreaK f nl nk s e
    else if (FReal.abs (lobAreaK f nl nk s e - lobAreaL f nl s e)).lt eps then
      lobAreaK f nl nk s e
    else
      lobattoRecAux f nl nk eps maxDepth fuel s (lobP2 f nk s e) (depth + 1) +
        lobattoRecAux f nl nk eps maxDepth fuel (lobP2 f nk s e) (lobP3 f nl s e) (depth + 1) +
        lobattoRecAux f nl nk eps maxDepth fuel (lobP3 f nl s e) (lobP4 f s e) (depth + 1) +
        lobattoRecAux f nl nk eps maxDepth fuel (lobP4 f s e) (lobP5 f nl s e) (depth + 1) +
        lobattoRecAux f nl nk eps maxDepth fuel (lobP5 f nl s e) (lobP6 f nk s e) (depth + 1) +
        lobattoRecAux f nl nk eps maxDepth fuel (lobP6 f nk s e) e (depth + 1)

/-- The recursive lambda of `Lobatto` at its exact remaining depth budget. -/
def lobattoRec (f : FReal → FReal) (nl nk : ℚ) (eps : FReal) (maxDepth : Nat)
    (s e : LData) (depth : Nat) : FReal :=
  lobattoRecAux f nl nk eps maxDepth (maxDepth + 1 - depth) s e depth

/-- `Quadrature::Lobatto`: sort the bounds, clamp `max_depth` to 8 and
`epsilon` to at least `numeric_epsilon`, sample both bounds, return NaN if
either sample is non-finite, and otherwise run the adaptive subdivision
from depth 0.  `nl` and `nk` are the values of the irrational node
constants `node_lobatto = sqrt(1/5)` and `node_kronrod = sqrt(2/3)`. -/
def Lobatto (f : FReal → FReal) (nl nk : ℚ) (a0 b0 : FReal)
    (aEpsilon : FReal) (aMaxDepth : Nat) : FReal :=
  let a := if b0.lt a0 then b0 else a0
  let b := if b0.lt a0 then a0 else b0
  let maxDepth := min aMaxDepth 8
  let epsilon := FReal.maxF aEpsilon numericEpsilon
  let s : LData := ⟨a, f a⟩
  let e : LData := ⟨b, f b⟩
  if s.y.isFinite = false ∨ e.y.isFinite = false then FReal.nan
  else lobattoRec f nl nk epsilon maxDepth s e 0

/-- Values of the integrand sampled by the recursive lambda of `Lobatto`
(each step samples the five interior points before any check). -/
def lobattoRecSamplesAux (f : FReal → FReal) (nl nk : ℚ) (eps : FReal)
    (maxDepth : Nat) (fuel : Nat) (s e : LData) (depth : Nat) : List FReal :=
  match fuel with
  | 0 =>
    [(lobP2 f nk s e).y, (lobP3 f nl s e).y, (lobP4 f s e).y,
      (lobP5 f nl s e).y, (lobP6 f nk s e).y]
  | fuel + 1 =>
    [(lobP2 f nk s e).y, (lobP3 f nl s e).y, (lobP4 f s e).y,
      (lobP5 f nl s e).y, (lobP6 f nk s e).y] ++
      (if (lobAreaK f nl nk s e).isFinite = false then []
       else if (FReal.abs (lobH s e)).lt numericInterval ∨ maxDepth < depth + 1 then []
       else if (FReal.abs (lobAreaK f nl nk s e - lobAreaL f nl s e)).lt eps then []
       else
         lobattoRecSamplesAux f nl nk eps maxDepth fuel s (lobP2 f nk s e) (depth + 1) ++
           lobattoRecSamplesAux f nl nk eps maxDepth fuel (lobP2 f nk s e) (lobP3 f nl s e)
             (depth + 1) ++
           lobattoRecSamplesAux f nl nk eps maxDepth fuel (lobP3 f nl s e) (lobP4 f s e)
             (depth + 1) ++
           lobattoRecSamplesAux f nl nk eps maxDepth fuel (lobP4 f s e) (lobP5 f nl s e)
             (depth + 1) ++
           lobattoRecSamplesAux f nl nk eps maxDepth fuel (lobP5 f nl s e) (lobP6 f nk s e)
             (depth + 1) ++
           lobattoRecSamplesAux f nl nk eps maxDepth fuel (lobP6 f nk s e) e (depth + 1))

/-- Values of the integrand sampled by a full run of `Lobatto`. -/
def LobattoSamples (f : FReal → FReal) (nl nk : ℚ) (a0 b0 : FReal)
    (aEpsilon : FReal) (aMaxDepth : Nat) : List FReal :=
  let a := if b0.lt a0 then b0 else a0
  let b := if b0.lt a0 then a0 else b0
  let maxDepth := min aMaxDepth 8
  let epsilon := FReal.maxF aEpsilon numericEpsilon
  let s : LData := ⟨a, f a⟩
  let e : LData := ⟨b, f b⟩
  s.y :: e.y ::
    (if s.y.isFinite = false ∨ e.y.isFinite = false then []
     else lobattoRecSamplesAux f nl nk epsilon maxDepth (maxDepth + 1) s e 0)

/-- Number of integrand evaluations of the recursive lambda of `Lobatto`
(five fresh samples per step, always taken before any check). -/
def lobattoRecCountAux (f : FReal → FReal) (nl nk : ℚ) (eps : FReal)
    (maxDepth : Nat) (fuel : Nat) (s e : LData) (depth : Nat) : Nat :=
  match fuel with
  | 0 => 5
  | fuel + 1 =>
    5 + (if (lobAreaK f nl nk s e).isFinite = false then 0
         else if (FReal.abs (lobH s e)).lt numericInterval ∨ maxDepth < depth + 1 then 0
         else if (FReal.abs (lobAreaK f nl nk s e - lobAreaL f nl s e)).lt eps then 0
         else
           lobattoRecCountAux f nl nk eps maxDepth fuel s (lobP2 f nk s e) (depth + 1) +
             lobattoRecCountAux f nl nk eps maxDepth fuel (lobP2 f nk s e) (lobP3 f nl s e)
               (depth + 1) +
             lobattoRecCountAux f nl nk eps maxDepth fuel (lobP3 f nl s e) (lobP4 f s e)
               (depth + 1) +
             lobattoRecCountAux f nl nk eps maxDepth fuel (lobP4 f s e) (lobP5 f nl s e)
               (depth + 1) +
             lobattoRecCountAux f nl nk eps maxDepth fuel (lobP5 f nl s e) (lobP6 f nk s e)
               (depth + 1) +
             lobattoRecCountAux f nl nk eps maxDepth fuel (lobP6 f nk s e) e (depth + 1))

/-- Total number of integrand evaluations of a full run of `Lobatto`: the
two bounds plus the recursion's samples. -/
def LobattoCount (f : FReal → FReal) (nl nk : ℚ) (a0 b0 : FReal)
    (aEpsilon : FReal) (aMaxDepth : Nat) : Nat :=
  let a := if b0.lt a0 then b0 else a0
  let b := if b0.lt a0 then a0 else b0
  let maxDepth := min aMaxDepth 8
  let epsilon := FReal.maxF aEpsilon numericEpsilon
  let s : LData := ⟨a, f a⟩
  let e : LData := ⟨b, f b⟩
  2 + (if s.y.isFinite = false ∨ e.y.isFinite = false then 0
       else lobattoRecCountAux f nl nk epsilon maxDepth (maxDepth + 1) s e 0)

/-- The Simpson refinement step exactly as claim C1 enumerates it: guard,
two half-interval estimates, Lyness error, accept-or-recurse — with no
finiteness check on the two fresh quarter-point samples (the claim does not
mention one).  Fuel realisation as for `simpsonRecAux`. -/
def simpsonClaimedAux (f : FReal → FReal) (maxDepth : Nat) (fuel : Nat)
    (s m e : SData) (eps : FReal) (depth : Nat) : FReal :=
  match fuel with
  | 0 =>
    if eps.lt numericEpsilon ∨ (FReal.abs (e.x - s.x)).lt numericInterval then m.area
    else
      let l := sEvaluate f s m
      let r := sEvaluate f m e
      let err := (l.area + r.area - m.area) / .fin 15
      if (FReal.abs err).lt eps ∨ maxDepth < depth + 1 then l.area + r.area + err
      else FReal.nan
  | fuel + 1 =>
    if eps.lt numericEpsilon ∨ (FReal.abs (e.x - s.x)).lt numericInterval then m.area
    else
      let l := sEvaluate f s m
      let r := sEvaluate f m e
      let err := (l.area + r.area - m.area) / .fin 15
      if (FReal.abs err).lt eps ∨ maxDepth < depth + 1 then l.area + r.area + err
      else
        simpsonClaimedAux f maxDepth fuel s l m (eps / .fin 2) (depth + 1) +
        simpsonClaimedAux f maxDepth fuel m r e (eps / .fin 2) (depth + 1)

/-- The Simpson refinement step of claim C1 at the exact depth budget. -/
def simpsonClaimed (f : FReal → FReal) (maxDepth : Nat) (s m e : SData)
    (eps : FReal) (depth : Nat) : FReal :=
  simpsonClaimedAux f maxDepth (maxDepth + 1 - depth) s m e eps depth

/-- The Lobatto step exactly as claim C2 enumerates it: the 7-point
estimate, the width/depth stop, the `|kronrod - lobatto| < eps` acceptance,
and the six-way recursion — with no finiteness test on the 7-point area
(the claim does not mention one). -/
def lobattoClaimedAux (f : FReal → FReal) (nl nk : ℚ) (eps : FReal)
    (maxDepth : Nat) (fuel : Nat) (s e : LData) (depth : Nat) : FReal :=
  match fuel with
  | 0 =>
    if (FReal.abs (lobH s e)).lt numericInterval ∨ maxDepth < depth + 1 then
      lobAreaK f nl nk s e
    else if (FReal.abs (lobAreaK f nl nk s e - lobAreaL f nl s e)).lt eps then
      lobAreaK f nl nk s e
    else FReal.nan
  | fuel + 1 =>
    if (FReal.abs (lobH s e)).lt numericInterval ∨ maxDepth < depth + 1 then
      lobAreaK f nl nk s e
    else if (FReal.abs (lobAreaK f nl nk s e - lobAreaL f nl s e)).lt eps then
      lobAreaK f nl nk s e
    else
      lobattoClaimedAux f nl nk eps maxDepth fuel s (lobP2 f nk s e) (depth + 1) +
        lobattoClaimedAux f nl nk eps maxDepth fuel (lobP2 f nk s e) (lobP3 f nl s e)
          (depth + 1) +
        lobattoClaimedAux f nl nk eps maxDepth fuel (lobP3 f nl s e) (lobP4 f s e) (depth + 1) +
        lobattoClaimedAux f nl nk eps maxDepth fuel (lobP4 f s e) (lobP5 f nl s e) (depth + 1) +
        lobattoClaimedAux f nl nk eps maxDepth fuel (lobP5 f nl s e) (lobP6 f nk s e)
          (depth + 1) +
        lobattoClaimedAux f nl nk eps maxDepth fuel (lobP6 f nk s e) e (depth + 1)

/-- The Lobatto step of claim C2 at the exact depth budget. -/
def lobattoClaimed (f : FReal → FReal) (nl nk : ℚ) (eps : FReal)
    (maxDepth : Nat) (s e : LData) (depth : Nat) : FReal :=
  lobattoClaimedAux f nl nk eps maxDepth (maxDepth + 1 - depth) s e depth

/-- The Simpson refinement step as claim C9 reads it: identical to the
code except that the acceptance test compares the error taken relative to
the five-point estimate, `|(L + R - M) / (L + R)| < eps`, instead of the
absolute Lyness estimate `|(L + R - M) / 15| < eps`. -/
def simpsonRelAux (f : FReal → FReal) (maxDepth : Nat) (fuel : Nat)
    (s m e : SData) (eps : FReal) (depth : Nat) : FReal :=
  match fuel with
  | 0 =>
    if eps.lt numericEpsilon ∨ (FReal.abs (e.x - s.x)).lt numericInterval then m.area
    else
      let l := sEvaluate f s m
      let r := sEvaluate f m e
      if l.y.isFinite = false ∨ r.y.isFinite = false then FReal.nan
      else
        let err := (l.area + r.area - m.area) / .fin 15
        let rel := (l.area + r.area - m.area) / (l.area + r.area)
        if (FReal.abs rel).lt eps ∨ maxDepth < depth + 1 then l.area + r.area + err
        else FReal.nan
  | fuel + 1 =>
    if eps.lt numericEpsilon ∨ (FReal.abs (e.x - s.x)).lt numericInterval then m.area
    else
      let l := sEvaluate f s m
      let r := sEvaluate f m e
      if l.y.isFinite = false ∨ r.y.isFinite = false then FReal.nan
      else
        let err := (l.area + r.area - m.area) / .fin 15
        let rel := (l.area + r.area - m.area) / (l.area + r.area)
        if (FReal.abs rel).lt eps ∨ maxDepth < depth + 1 then l.area + r.area + err
        else
          simpsonRelAux f maxDepth fuel s l m (eps / .fin 2) (depth + 1) +
          simpsonRelAux f maxDepth fuel m r e (eps / .fin 2) (depth + 1)

/-- The Simpson refinement step with claim C9's relative acceptance test,
at the exact depth budget. -/
def simpsonRel (f : FReal → FReal) (maxDepth : Nat) (s m e : SData)
    (eps : FReal) (depth : Nat) : FReal :=
  simpsonRelAux f maxDepth (maxDepth + 1 - depth) s m e eps depth

/-- Condition under which a Simpson refinement step takes its subdivision
branch: neither entry guard fires, both fresh samples are finite, and the
acceptance-or-exhaustion condition fails. -/
def sSubdivides (f : FReal → FReal) (maxDepth : Nat) (s m e : SData)
    (eps : FReal) (depth : Nat) : Prop :=
  ¬(eps.lt numericEpsilon ∨ (FReal.abs (e.x - s.x)).lt numericInterval) ∧
    (sEvaluate f s m).y.isFinite = true ∧ (sEvaluate f m e).y.isFinite = true ∧
    ¬((FReal.abs (sError f s m e)).lt eps ∨ maxDepth < depth + 1)

instance (f : FReal → FReal) (maxDepth : Nat) (s m e : SData) (eps : FReal)
    (depth : Nat) : Decidable (sSubdivides f maxDepth s m e eps depth) :=
  inferInstanceAs (Decidable (_ ∧ _ ∧ _ ∧ _))

/-- Calls of the recursive lambda of `Simpson` reachable from the call on
`(s0, m0, e0)` with tolerance `eps0` at depth 0: the root itself, and the
two half-interval calls of every reachable call that subdivides. -/
inductive SReach (f : FReal → FReal) (maxDepth : Nat) (s0 m0 e0 : SData)
    (eps0 : FReal) : SData → SData → SData → FReal → Nat → Prop where
  | root : SReach f maxDepth s0 m0 e0 eps0 s0 m0 e0 eps0 0
  | left {s m e : SData} {eps : FReal} {depth : Nat} :
      SReach f maxDepth s0 m0 e0 eps0 s m e eps depth →
      sSubdivides f maxDepth s m e eps depth →
      SReach f maxDepth s0 m0 e0 eps0 s (sEvaluate f s m) m (eps / .fin 2) (depth + 1)
  | right {s m e : SData} {eps : FReal} {depth : Nat} :
      SReach f maxDepth s0 m0 e0 eps0 s m e eps depth →
      sSubdivides f maxDepth s m e eps depth →
      SReach f maxDepth s0 m0 e0 eps0 m (sEvaluate f m e) e (eps / .fin 2) (depth + 1)

/-- Condition under which a Lobatto step takes its six-way subdivision
branch: the 7-point area is finite, neither the width stop nor the depth
stop fires, and the error acceptance fails. -/
def lSubdivides (f : FReal → FReal) (nl nk : ℚ) (eps : FReal)
    (maxDepth : Nat) (s e : LData) (depth : Nat) : Prop :=
  (lobAreaK f nl nk s e).isFinite = true ∧
    ¬((FReal.abs (lobH s e)).lt numericInterval ∨ maxDepth < depth + 1) ∧
    ¬(FReal.abs (lobAreaK f nl nk s e - lobAreaL f nl s e)).lt eps

instance (f : FReal → FReal) (nl nk : ℚ) (eps : FReal) (maxDepth : Nat)
    (s e : LData) (depth : Nat) : Decidable (lSubdivides f nl nk eps maxDepth s e depth) :=
  inferInstanceAs (Decidable (_ ∧ _ ∧ _))

/-- Calls of the recursive lambda of `Lobatto` reachable from the call on
`(s0, e0)` at depth 0: the root itself, and the six sub-interval calls of
every reachable call that subdivides. -/
inductive LReach (f : FReal → FReal) (nl nk : ℚ) (eps : FReal)
    (maxDepth : Nat) (s0 e0 : LData) : LData → LData → Nat → Prop where
  | root : LReach f nl nk eps maxDepth s0 e0 s0 e0 0
  | sub1 {s e : LData} {depth : Nat} :
      LReach f nl nk eps maxDepth s0 e0 s e depth →
      lSubdivides f nl nk eps maxDepth s e depth →
      LReach f nl nk eps maxDepth s0 e0 s (lobP2 f nk s e) (depth + 1)
  | sub2 {s e : LData} {depth : Nat} :
      LReach f nl nk eps maxDepth s0 e0 s e depth →
      lSubdivides f nl nk eps maxDepth s e depth →
      LReach f nl nk eps maxDepth s0 e0 (lobP2 f nk s e) (lobP3 f nl s e) (depth + 1)
  | sub3 {s e : LData} {depth : Nat} :
      LReach f nl nk eps maxDepth s0 e0 s e depth →
      lSubdivides f nl nk eps maxDepth s e depth →
      LReach f nl nk eps maxDepth s0 e0 (lobP3 f nl s e) (lobP4 f s e) (depth + 1)
  | sub4 {s e : LData} {depth : Nat} :
      LReach f nl nk eps maxDepth s0 e0 s e depth →
      lSubdivides f nl nk eps maxDepth s e depth →
      LReach f nl nk eps maxDepth s0 e0 (lobP4 f s e) (lobP5 f nl s e) (depth + 1)
  | sub5 {s e : LData} {depth : Nat} :
      LReach f nl nk eps maxDepth s0 e0 s e depth →
      lSubdivides f nl nk eps maxDepth s e depth →
      LReach f nl nk eps maxDepth s0 e0 (lobP5 f nl s e) (lobP6 f nk s e) (depth + 1)
  | sub6 {s e : LData} {depth : Nat} :
      LReach f nl nk eps maxDepth s0 e0 s e depth →
      lSubdivides f nl nk eps maxDepth s e depth →
      LReach f nl nk eps maxDepth s0 e0 (lobP6 f nk s e) e (depth + 1)

theorem FReal.add_def (x y : FReal) : x + y = x.add y := rfl

theorem FReal.sub_def (x y : FReal) : x - y = x.sub y := rfl

theorem FReal.mul_def (x y : FReal) : x * y = x.mul y := rfl

theorem FReal.div_def (x y : FReal) : x / y = x.div y := rfl

theorem maxMagnitude_eq : maxMagnitude = (2 : ℚ) ^ 16384 := by
  delta maxMagnitude
  push_cast
  rfl

theorem maxMagnitude_pos : 0 < maxMagnitude := by
  rw [maxMagnitude_eq]
  positivity

theorem mkF_eq_fin {q : ℚ} (h : |q| ≤ maxMagnitude) : mkF q = .fin q := by
  rw [abs_le] at h
  unfold mkF
  rw [if_neg (not_lt.mpr h.2), if_neg (not_lt.mpr (neg_le.mp (neg_le.mpr h.1)))]

theorem mkF_eq_fin_small {q : ℚ} (h1 : -(2 : ℚ) ^ 100 ≤ q) (h2 : q ≤ (2 : ℚ) ^ 100) :
    mkF q = .fin q :=
  mkF_eq_fin ((abs_le.mpr ⟨h1, h2⟩).trans
    (by rw [maxMagnitude_eq]; exact pow_le_pow_right₀ one_le_two (by norm_num)))

theorem mkF_eq_inf_true {q : ℚ} (h : maxMagnitude < q) : mkF q = .inf true := by
  unfold mkF
  rw [if_pos h]

theorem FReal.abs_fin_nonneg {q : ℚ} (h : 0 ≤ q) : FReal.abs (.fin q) = .fin q := by
  simp [FReal.abs, abs_of_nonneg h]

theorem FReal.abs_fin_nonpos {q : ℚ} (h : q ≤ 0) : FReal.abs (.fin q) = .fin (-q) := by
  simp [FReal.abs, abs_of_nonpos h]

theorem FReal.nan_add (x : FReal) : FReal.nan + x = .nan := by cases x <;> rfl

theorem FReal.add_nan (x : FReal) : x + .nan = .nan := by cases x <;> rfl

theorem FReal.add_eq_nan {x y : FReal} (h : x = .nan ∨ y = .nan) : x + y = .nan := by
  rcases h with h | h
  · rw [h]; exact FReal.nan_add y
  · rw [h]; exact FReal.add_nan x

theorem FReal.nan_mul (x : FReal) : FReal.nan * x = .nan := by cases x <;> rfl

theorem FReal.mul_nan (x : FReal) : x * .nan = .nan := by cases x <;> rfl

theorem FReal.nan_div (x : FReal) : FReal.nan / x = .nan := by cases x <;> rfl

theorem FReal.div_nan (x : FReal) : x / .nan = .nan := by cases x <;> rfl

theorem FReal.nan_sub (x : FReal) : FReal.nan - x = .nan := by cases x <;> rfl

theorem FReal.sub_nan (x : FReal) : x - .nan = .nan := by cases x <;> rfl

theorem FReal.abs_nan : FReal.abs .nan = .nan := rfl

theorem FReal.isFinite_nan : FReal.isFinite .nan = false := rfl

theorem FReal.isFinite_add_false {x y : FReal}
    (h : x.isFinite = false ∨ y.isFinite = false) : (x + y).isFinite = false := by
  rw [FReal.add_def]
  cases x <;> cases y <;> simp_all [FReal.add, FReal.isFinite] <;> split_ifs <;>
    simp [FReal.isFinite]

theorem FReal.isFinite_mul_false {x y : FReal}
    (h : x.isFinite = false ∨ y.isFinite = false) : (x * y).isFinite = false := by
  rw [FReal.mul_def]
  cases x <;> cases y <;> simp_all [FReal.mul, FReal.isFinite] <;> split_ifs <;>
    simp [FReal.isFinite]

theorem FReal.blt_asymm {x y : FReal} (h : x.blt y = true) : y.blt x = false := by
  cases x <;> cases y <;> simp_all [FReal.blt]
  exact le_of_lt h

theorem FReal.eq_of_not_blt {x y : FReal} (h1 : x.blt y = false) (h2 : y.blt x = false)
    (hx : x ≠ .nan) (hy : y ≠ .nan) : x = y := by
  cases x with
  | nan => exact absurd rfl hx
  | fin a =>
    cases y with
    | nan => exact absurd rfl hy
    | fin b =>
      simp only [FReal.blt, decide_eq_false_iff_not, not_lt] at h1 h2
      exact congrArg FReal.fin (le_antisymm h2 h1)
    | inf p => simp only [FReal.blt] at h1 h2; simp [h1] at h2
  | inf p =>
    cases y with
    | nan => exact absurd rfl hy
    | fin b => simp only [FReal.blt] at h1 h2; simp [h2] at h1
    | inf q =>
      simp only [FReal.blt, Bool.and_eq_false_iff, Bool.not_eq_false'] at h1 h2
      cases p <;> cases q <;> simp_all

theorem FReal.add_comm (x y : FReal) : x + y = y + x := by
  rw [FReal.add_def, FReal.add_def]
  cases x <;> cases y <;> simp only [FReal.add]
  · rw [Rat.add_comm]
  · rename_i p q
    by_cases hpq : p = q
    · subst hpq; rfl
    · rw [if_neg hpq, if_neg (Ne.symm hpq)]

theorem FReal.abs_mkF_neg (q : ℚ) : (mkF (-q)).abs = (mkF q).abs := by
  unfold mkF
  split_ifs <;> simp_all [FReal.abs] <;> linarith

theorem FReal.abs_sub_comm (x y : FReal) : FReal.abs (x - y) = FReal.abs (y - x) := by
  rw [FReal.sub_def, FReal.sub_def]
  cases x with
  | fin a =>
    cases y with
    | fin b =>
      show (mkF (a + -b)).abs = (mkF (b + -a)).abs
      rw [show b + -a = -(a + -b) by ring, FReal.abs_mkF_neg]
    | inf p => rfl
    | nan => rfl
  | inf p =>
    cases y with
    | fin b => rfl
    | inf q => cases p <;> cases q <;> rfl
    | nan => rfl
  | nan => cases y <;> rfl

theorem FReal.fin_add_fin (a b : ℚ) : FReal.fin a + .fin b = mkF (a + b) := rfl

theorem FReal.fin_add_inf (a : ℚ) (p : Bool) : FReal.fin a + .inf p = .inf p := rfl

theorem FReal.inf_add_fin (p : Bool) (b : ℚ) : FReal.inf p + .fin b = .inf p := rfl

theorem FReal.inf_add_inf (p q : Bool) :
    FReal.inf p + .inf q = if p = q then .inf p else .nan := rfl

theorem FReal.fin_sub_fin (a b : ℚ) : FReal.fin a - .fin b = mkF (a + -b) := rfl

theorem FReal.fin_sub_inf (a : ℚ) (p : Bool) : FReal.fin a - .inf p = .inf (!p) := rfl

theorem FReal.inf_sub_fin (p : Bool) (b : ℚ) : FReal.inf p - .fin b = .inf p := rfl

theorem FReal.inf_sub_inf (p q : Bool) :
    FReal.inf p - .inf q = if p = !q then .inf p else .nan := rfl

theorem FReal.fin_mul_fin (a b : ℚ) : FReal.fin a * .fin b = mkF (a * b) := rfl

theorem FReal.fin_mul_inf (a : ℚ) (p : Bool) :
    FReal.fin a * .inf p = if a = 0 then .nan else .inf (p == decide (0 < a)) := rfl

theorem FReal.inf_mul_fin (p : Bool) (b : ℚ) :
    FReal.inf p * .fin b = if b = 0 then .nan else .inf (p == decide (0 < b)) := rfl

theorem FReal.inf_mul_inf (p q : Bool) : FReal.inf p * .inf q = .inf (p == q) := rfl

theorem FReal.fin_div_fin (a b : ℚ) :
    FReal.fin a / .fin b =
      if b = 0 then (if a = 0 then .nan else .inf (decide (0 < a))) else mkF (a / b) := rfl

theorem FReal.fin_div_inf (a : ℚ) (p : Bool) : FReal.fin a / .inf p = .fin 0 := rfl

theorem FReal.inf_div_fin (p : Bool) (b : ℚ) :
    FReal.inf p / .fin b = if b = 0 then .inf p else .inf (p == decide (0 < b)) := rfl

theorem FReal.inf_div_inf (p q : Bool) : FReal.inf p / .inf q = .nan := rfl

theorem FReal.abs_inf (p : Bool) : (FReal.inf p).abs = .inf true := rfl

theorem FReal.isFinite_fin (a : ℚ) : (FReal.fin a).isFinite = true := rfl

theorem FReal.isFinite_inf (p : Bool) : (FReal.inf p).isFinite = false := rfl

theorem FReal.blt_fin_fin (a b : ℚ) : (FReal.fin a).blt (.fin b) = decide (a < b) := rfl

theorem FReal.blt_fin_inf (a : ℚ) (p : Bool) : (FReal.fin a).blt (.inf p) = p := rfl

theorem FReal.blt_inf_fin (p : Bool) (b : ℚ) : (FReal.inf p).blt (.fin b) = !p := rfl

theorem FReal.blt_inf_inf (p q : Bool) : (FReal.inf p).blt (.inf q) = (!p && q) := rfl

theorem FReal.blt_nan_left (x : FReal) : (FReal.nan).blt x = false := by cases x <;> rfl

theorem FReal.blt_nan_right (x : FReal) : x.blt .nan = false := by cases x <;> rfl

theorem sEvaluate_nan {f : FReal → FReal} {s e : SData} (h : s.x = .nan ∨ e.x = .nan) :
    (sEvaluate f s e).x = .nan ∧ (sEvaluate f s e).area = .nan := by
  have hx : s.x + e.x = FReal.nan := FReal.add_eq_nan h
  have hsub : e.x - s.x = FReal.nan := by
    rcases h with h | h
    · rw [h, FReal.sub_nan]
    · rw [h, FReal.nan_sub]
  constructor
  · show (s.x + e.x) / .fin 2 = .nan
    rw [hx, FReal.nan_div]
  · show FReal.abs (e.x - s.x) * (s.y + .fin 4 * f ((s.x + e.x) / .fin 2) + e.y) / .fin 6 = .nan
    rw [hsub, FReal.abs_nan, FReal.nan_mul, FReal.nan_div]

theorem simpsonRecAux_nan (f : FReal → FReal) (M : Nat) :
    ∀ (fuel : Nat) (s m e : SData) (eps : FReal) (d : Nat),
      (s.x = .nan ∨ e.x = .nan) → m.x = .nan → m.area = .nan →
      simpsonRecAux f M fuel s m e eps d = .nan := by
  intro fuel
  induction fuel with
  | zero =>
    intro s m e eps d hse hmx hma
    have hl := sEvaluate_nan (f := f) (s := s) (e := m) (Or.inr hmx)
    have hr := sEvaluate_nan (f := f) (s := m) (e := e) (Or.inl hmx)
    simp only [simpsonRecAux]
    split_ifs with h1 h2 h3
    · exact hma
    · rfl
    · rw [hl.2, hr.2, FReal.nan_add, FReal.nan_add]
    · rfl
  | succ fuel ih =>
    intro s m e eps d hse hmx hma
    have hl := sEvaluate_nan (f := f) (s := s) (e := m) (Or.inr hmx)
    have hr := sEvaluate_nan (f := f) (s := m) (e := e) (Or.inl hmx)
    simp only [simpsonRecAux]
    split_ifs with h1 h2 h3
    · exact hma
    · rfl
    · rw [hl.2, hr.2, FReal.nan_add, FReal.nan_add]
    · rw [ih s (sEvaluate f s m) m (eps / .fin 2) (d + 1) (Or.inr hmx) hl.1 hl.2,
        ih m (sEvaluate f m e) e (eps / .fin 2) (d + 1) (Or.inl hmx) hr.1 hr.2,
        FReal.nan_add]

theorem lobattoRecAux_nan (f : FReal → FReal) (nl nk : ℚ) (eps : FReal) (M : Nat)
    (fuel : Nat) (s e : LData) (d : Nat) (h : s.x = .nan ∨ e.x = .nan) :
    lobattoRecAux f nl nk eps M fuel s e d = .nan := by
  have hh : lobH s e = .nan := by
    unfold lobH
    rcases h with h | h
    · rw [h, FReal.sub_nan, FReal.nan_div]
    · rw [h, FReal.nan_sub, FReal.nan_div]
  have hk : (lobAreaK f nl nk s e).isFinite = false := by
    unfold lobAreaK
    rw [hh, FReal.nan_div, FReal.nan_mul]
    rfl
  cases fuel <;> simp only [lobattoRecAux] <;> rw [if_pos hk]

theorem add6_nan {a b c d e g : FReal}
    (h : a = .nan ∨ b = .nan ∨ c = .nan ∨ d = .nan ∨ e = .nan ∨ g = .nan) :
    a + b + c + d + e + g = .nan := by
  rcases h with h | h | h | h | h | h
  · rw [FReal.add_eq_nan (Or.inl h), FReal.nan_add, FReal.nan_add, FReal.nan_add, FReal.nan_add]
  · rw [FReal.add_eq_nan (Or.inr h), FReal.nan_add, FReal.nan_add, FReal.nan_add, FReal.nan_add]
  · rw [FReal.add_eq_nan (Or.inr h), FReal.nan_add, FReal.nan_add, FReal.nan_add]
  · rw [FReal.add_eq_nan (Or.inr h), FReal.nan_add, FReal.nan_add]
  · rw [FReal.add_eq_nan (Or.inr h), FReal.nan_add]
  · rw [FReal.add_eq_nan (Or.inr h)]

theorem lobAreaK_not_finite {f : FReal → FReal} {nl nk : ℚ} {s e : LData}
    (h : (lobP2 f nk s e).y.isFinite = false ∨ (lobP3 f nl s e).y.isFinite = false ∨
      (lobP4 f s e).y.isFinite = false ∨ (lobP5 f nl s e).y.isFinite = false ∨
      (lobP6 f nk s e).y.isFinite = false) :
    (lobAreaK f nl nk s e).isFinite = false := by
  unfold lobAreaK
  apply FReal.isFinite_mul_false
  right
  rcases h with h | h | h | h | h
  · apply FReal.isFinite_add_false; left
    apply FReal.isFinite_add_false; left
    apply FReal.isFinite_add_false; right
    apply FReal.isFinite_mul_false; left
    apply FReal.isFinite_add_false; left
    exact h
  · apply FReal.isFinite_add_false; left
    apply FReal.isFinite_add_false; right
    apply FReal.isFinite_mul_false; left
    apply FReal.isFinite_add_false; left
    exact h
  · apply FReal.isFinite_add_false; right
    apply FReal.isFinite_mul_false; left
    exact h
  · apply FReal.isFinite_add_false; left
    apply FReal.isFinite_add_false; right
    apply FReal.isFinite_mul_false; left
    apply FReal.isFinite_add_false; right
    exact h
  · apply FReal.isFinite_add_false; left
    apply FReal.isFinite_add_false; left
    apply FReal.isFinite_add_false; right
    apply FReal.isFinite_mul_false; left
    apply FReal.isFinite_add_false; right
    exact h

theorem simpsonRecAux_samples_nan (f : FReal → FReal) (M : Nat) :
    ∀ (fuel : Nat) (s m e : SData) (eps : FReal) (d : Nat),
      (∃ v ∈ simpsonRecSamplesAux f M fuel s m e eps d, v.isFinite = false) →
      simpsonRecAux f M fuel s m e eps d = .nan := by
  intro fuel
  induction fuel with
  | zero =>
    intro s m e eps d hex
    obtain ⟨v, hv, hfin⟩ := hex
    simp only [simpsonRecSamplesAux] at hv
    simp only [simpsonRecAux]
    split_ifs with h1 h2 h3
    · rw [if_pos h1] at hv; simp at hv
    · rfl
    · rw [if_neg h1] at hv
      simp only [List.mem_cons, List.not_mem_nil, or_false] at hv
      rcases hv with hv | hv <;> rw [hv] at hfin <;> simp_all
    · rfl
  | succ fuel ih =>
    intro s m e eps d hex
    obtain ⟨v, hv, hfin⟩ := hex
    simp only [simpsonRecSamplesAux] at hv
    simp only [simpsonRecAux]
    split_ifs with h1 h2 h3
    · rw [if_pos h1] at hv; simp at hv
    · rfl
    · rw [if_neg h1, if_neg h2] at hv
      have h3' : (FReal.abs (sError f s m e)).lt eps ∨ M < d + 1 := by
        simpa [sError] using h3
      rw [if_pos h3'] at hv
      simp only [List.mem_cons, List.not_mem_nil, or_false] at hv
      rcases hv with hv | hv <;> rw [hv] at hfin <;> simp_all
    · rw [if_neg h1, if_neg h2] at hv
      have h3' : ¬((FReal.abs (sError f s m e)).lt eps ∨ M < d + 1) := by
        simpa [sError] using h3
      rw [if_neg h3'] at hv
      simp only [List.mem_cons, List.mem_append] at hv
      rcases hv with hv | hv | hv | hv
      · rw [hv] at hfin; simp_all
      · rw [hv] at hfin; simp_all
      · rw [ih s (sEvaluate f s m) m (eps / .fin 2) (d + 1) ⟨v, hv, hfin⟩, FReal.nan_add]
      · rw [ih m (sEvaluate f m e) e (eps / .fin 2) (d + 1) ⟨v, hv, hfin⟩, FReal.add_nan]

theorem lobattoRecAux_samples_nan (f : FReal → FReal) (nl nk : ℚ) (eps : FReal) (M : Nat) :
    ∀ (fuel : Nat) (s e : LData) (d : Nat),
      (∃ v ∈ lobattoRecSamplesAux f nl nk eps M fuel s e d, v.isFinite = false) →
      lobattoRecAux f nl nk eps M fuel s e d = .nan := by
  intro fuel
  induction fuel with
  | zero =>
    intro s e d hex
    obtain ⟨v, hv, hfin⟩ := hex
    simp only [lobattoRecSamplesAux, List.mem_cons, List.not_mem_nil, or_false] at hv
    have hk : (lobAreaK f nl nk s e).isFinite = false := by
      apply lobAreaK_not_finite
      rcases hv with hv | hv | hv | hv | hv <;> rw [← hv] <;> simp_all
    simp only [lobattoRecAux]
    rw [if_pos hk]
  | succ fuel ih =>
    intro s e d hex
    obtain ⟨v, hv, hfin⟩ := hex
    simp only [lobattoRecSamplesAux, List.mem_append, List.mem_cons,
      List.not_mem_nil, or_false] at hv
    rcases hv with (hv | hv | hv | hv | hv) | hv
    · have hk : (lobAreaK f nl nk s e).isFinite = false :=
        lobAreaK_not_finite (Or.inl (by rw [← hv]; exact hfin))
      simp only [lobattoRecAux]; rw [if_pos hk]
    · have hk : (lobAreaK f nl nk s e).isFinite = false :=
        lobAreaK_not_finite (Or.inr (Or.inl (by rw [← hv]; exact hfin)))
      simp only [lobattoRecAux]; rw [if_pos hk]
    · have hk : (lobAreaK f nl nk s e).isFinite = false :=
        lobAreaK_not_finite (Or.inr (Or.inr (Or.inl (by rw [← hv]; exact hfin))))
      simp only [lobattoRecAux]; rw [if_pos hk]
    · have hk : (lobAreaK f nl nk s e).isFinite = false :=
        lobAreaK_not_finite (Or.inr (Or.inr (Or.inr (Or.inl (by rw [← hv]; exact hfin)))))
      simp only [lobattoRecAux]; rw [if_pos hk]
    · have hk : (lobAreaK f nl nk s e).isFinite = false :=
        lobAreaK_not_finite (Or.inr (Or.inr (Or.inr (Or.inr (by rw [← hv]; exact hfin)))))
      simp only [lobattoRecAux]; rw [if_pos hk]
    · by_cases h1 : (lobAreaK f nl nk s e).isFinite = false
      · simp only [lobattoRecAux]; rw [if_pos h1]
      · rw [if_neg h1] at hv
        by_cases h2 : (FReal.abs (lobH s e)).lt numericInterval ∨ M < d + 1
        · rw [if_pos h2] at hv; simp at hv
        · rw [if_neg h2] at hv
          by_cases h3 : (FReal.abs (lobAreaK f nl nk s e - lobAreaL f nl s e)).lt eps
          · rw [if_pos h3] at hv; simp at hv
          · rw [if_neg h3] at hv
            simp only [lobattoRecAux]
            rw [if_neg h1, if_neg h2, if_neg h3]
            apply add6_nan
            simp only [List.mem_append] at hv
            rcases hv with ((((hv | hv) | hv) | hv) | hv) | hv
            · exact Or.inl (ih _ _ _ ⟨v, hv, hfin⟩)
            · exact Or.inr (Or.inl (ih _ _ _ ⟨v, hv, hfin⟩))
            · exact Or.inr (Or.inr (Or.inl (ih _ _ _ ⟨v, hv, hfin⟩)))
            · exact Or.inr (Or.inr (Or.inr (Or.inl (ih _ _ _ ⟨v, hv, hfin⟩))))
            · exact Or.inr (Or.inr (Or.inr (Or.inr (Or.inl (ih _ _ _ ⟨v, hv, hfin⟩)))))
            · exact Or.inr (Or.inr (Or.inr (Or.inr (Or.inr (ih _ _ _ ⟨v, hv, hfin⟩)))))

theorem Simpson_samples_nan {f : FReal → FReal} {a0 b0 aEps : FReal} {aM : Nat}
    (hex : ∃ v ∈ SimpsonSamples f a0 b0 aEps aM, v.isFinite = false) :
    Simpson f a0 b0 aEps aM = .nan := by
  obtain ⟨v, hv, hfin⟩ := hex
  simp only [SimpsonSamples, List.mem_cons] at hv
  simp only [Simpson]
  set a := if b0.lt a0 then b0 else a0 with hA
  set b := if b0.lt a0 then a0 else b0 with hB
  split_ifs with hchk
  · rfl
  · rw [if_neg hchk] at hv
    rcases hv with hv | hv | hv | hv
    · exact absurd (Or.inl (hv ▸ hfin)) hchk
    · exact absurd (Or.inr (Or.inl (hv ▸ hfin))) hchk
    · exact absurd (Or.inr (Or.inr (hv ▸ hfin))) hchk
    · simp only [simpsonRec, Nat.sub_zero]
      exact simpsonRecAux_samples_nan f _ _ _ _ _ _ _ ⟨v, hv, hfin⟩

theorem Lobatto_samples_nan {f : FReal → FReal} {nl nk : ℚ} {a0 b0 aEps : FReal} {aM : Nat}
    (hex : ∃ v ∈ LobattoSamples f nl nk a0 b0 aEps aM, v.isFinite = false) :
    Lobatto f nl nk a0 b0 aEps aM = .nan := by
  obtain ⟨v, hv, hfin⟩ := hex
  simp only [LobattoSamples, List.mem_cons] at hv
  simp only [Lobatto]
  set a := if b0.lt a0 then b0 else a0 with hA
  set b := if b0.lt a0 then a0 else b0 with hB
  split_ifs with hchk
  · rfl
  · rw [if_neg hchk] at hv
    rcases hv with hv | hv | hv
    · exact absurd (Or.inl (hv ▸ hfin)) hchk
    · exact absurd (Or.inr (hv ▸ hfin)) hchk
    · simp only [lobattoRec, Nat.sub_zero]
      exact lobattoRecAux_samples_nan f _ _ _ _ _ _ _ _ ⟨v, hv, hfin⟩

theorem Simpson_nan_bound {f : FReal → FReal} {x y aEps : FReal} {aM : Nat}
    (h : x = .nan ∨ y = .nan) : Simpson f x y aEps aM = .nan := by
  simp only [Simpson]
  set a := if y.lt x then y else x with hA
  set b := if y.lt x then x else y with hB
  have hab : a = FReal.nan ∨ b = FReal.nan := by
    rw [hA, hB]
    split_ifs <;> tauto
  split_ifs with hchk
  · rfl
  · have hm := sEvaluate_nan (f := f) (s := ⟨a, f a, .fin 0⟩) (e := ⟨b, f b, .fin 0⟩) hab
    simp only [simpsonRec]
    exact simpsonRecAux_nan f _ _ _ _ _ _ _ hab hm.1 hm.2

theorem Lobatto_nan_bound {f : FReal → FReal} {nl nk : ℚ} {x y aEps : FReal} {aM : Nat}
    (h : x = .nan ∨ y = .nan) : Lobatto f nl nk x y aEps aM = .nan := by
  simp only [Lobatto]
  set a := if y.lt x then y else x with hA
  set b := if y.lt x then x else y with hB
  have hab : a = FReal.nan ∨ b = FReal.nan := by
    rw [hA, hB]
    split_ifs <;> tauto
  split_ifs with hchk
  · rfl
  · simp only [lobattoRec]
    exact lobattoRecAux_nan f nl nk _ _ _ _ _ _ hab

theorem simpsonRecCountAux_le (f : FReal → FReal) (M : Nat) :
    ∀ (fuel : Nat) (s m e : SData) (eps : FReal) (d : Nat), d ≤ M → M + 1 ≤ fuel + d →
      simpsonRecCountAux f M fuel s m e eps d ≤ 2 ^ (M + 2 - d) - 2 := by
  intro fuel
  induction fuel with
  | zero => intro s m e eps d hd hf; omega
  | succ fuel ih =>
    intro s m e eps d hd hf
    have hexp : 4 ≤ 2 ^ (M + 2 - d) := by
      calc (4:ℕ) = 2 ^ 2 := rfl
      _ ≤ 2 ^ (M + 2 - d) := Nat.pow_le_pow_right (by norm_num) (by omega)
    simp only [simpsonRecCountAux]
    split_ifs with h1 h2 h3
    · omega
    · omega
    · omega
    · have hd1 : d + 1 ≤ M := by
        rcases not_or.mp h3 with ⟨-, h⟩
        omega
      have e1 : M + 2 - d = (M + 1 - d) + 1 := by omega
      have e2 : M + 2 - (d + 1) = M + 1 - d := by omega
      have hL := ih s (sEvaluate f s m) m (eps / .fin 2) (d + 1) hd1 (by omega)
      have hR := ih m (sEvaluate f m e) e (eps / .fin 2) (d + 1) hd1 (by omega)
      rw [e2] at hL hR
      have h4 : (4:ℕ) ≤ 2 ^ (M + 1 - d) := by
        calc (4:ℕ) = 2 ^ 2 := rfl
        _ ≤ 2 ^ (M + 1 - d) := Nat.pow_le_pow_right (by norm_num) (by omega)
      rw [e1, pow_succ]
      omega

theorem lobattoRecCountAux_le (f : FReal → FReal) (nl nk : ℚ) (eps : FReal) (M : Nat) :
    ∀ (fuel : Nat) (s e : LData) (d : Nat), d ≤ M → M + 1 ≤ fuel + d →
      lobattoRecCountAux f nl nk eps M fuel s e d ≤ 6 ^ (M + 1 - d) - 1 := by
  intro fuel
  induction fuel with
  | zero => intro s e d hd hf; omega
  | succ fuel ih =>
    intro s e d hd hf
    have hexp : 6 ≤ 6 ^ (M + 1 - d) := by
      calc (6:ℕ) = 6 ^ 1 := (pow_one 6).symm
      _ ≤ 6 ^ (M + 1 - d) := Nat.pow_le_pow_right (by norm_num) (by omega)
    simp only [lobattoRecCountAux]
    split_ifs with h1 h2 h3
    · omega
    · omega
    · omega
    · have hd1 : d + 1 ≤ M := by
        rcases not_or.mp h2 with ⟨-, h⟩
        omega
      have e2 : M + 1 - (d + 1) = M - d := by omega
      have e1 : M + 1 - d = (M - d) + 1 := by omega
      have h6 : 1 ≤ 6 ^ (M - d) := Nat.one_le_pow _ _ (by norm_num)
      have c1 := ih s (lobP2 f nk s e) (d + 1) hd1 (by omega)
      have c2 := ih (lobP2 f nk s e) (lobP3 f nl s e) (d + 1) hd1 (by omega)
      have c3 := ih (lobP3 f nl s e) (lobP4 f s e) (d + 1) hd1 (by omega)
      have c4 := ih (lobP4 f s e) (lobP5 f nl s e) (d + 1) hd1 (by omega)
      have c5 := ih (lobP5 f nl s e) (lobP6 f nk s e) (d + 1) hd1 (by omega)
      have c6 := ih (lobP6 f nk s e) e (d + 1) hd1 (by omega)
      rw [e2] at c1 c2 c3 c4 c5 c6
      rw [e1, pow_succ]
      omega

/-- C3: for every integrand `f` and bounds: if `f` evaluates to a non-finite
value (NaN or infinity) at `a`, at `b`, or at any internally sampled point,
then the top-level result of `Simpson` and of `Lobatto` is NaN — the
failure poisons the whole integral, no partial result is salvaged. -/
theorem claim_C3 (f : FReal → FReal) (nl nk : ℚ) (a0 b0 aEps : FReal) (aMS aML : Nat) :
    ((∃ v ∈ SimpsonSamples f a0 b0 aEps aMS, v.isFinite = false) →
      Simpson f a0 b0 aEps aMS = NaN) ∧
    ((∃ v ∈ LobattoSamples f nl nk a0 b0 aEps aML, v.isFinite = false) →
      Lobatto f nl nk a0 b0 aEps aML = NaN) :=
  ⟨fun hex => Simpson_samples_nan hex, fun hex => Lobatto_samples_nan hex⟩

/-- Witness for C3: the constant-NaN integrand is sampled non-finitely at
the bounds and both integrators return NaN on `[0, 1]`. -/
theorem claim_C3_witness :
    Simpson (fun _ => FReal.nan) (.fin 0) (.fin 1) (.fin (1/1000)) 8 = NaN ∧
    Lobatto (fun _ => FReal.nan) (1/2) (3/4) (.fin 0) (.fin 1) (.fin (1/1000)) 2 = NaN :=
  ⟨(claim_C3 (fun _ => FReal.nan) (1/2) (3/4) (.fin 0) (.fin 1) (.fin (1/1000)) 8 2).1
      ⟨FReal.nan, by simp [SimpsonSamples], rfl⟩,
    (claim_C3 (fun _ => FReal.nan) (1/2) (3/4) (.fin 0) (.fin 1) (.fin (1/1000)) 8 2).2
      ⟨FReal.nan, by simp [LobattoSamples], rfl⟩⟩

/-- C4: for every integrand, bounds, epsilon and max_depth, `Simpson` and
`Lobatto` give the identical (not negated) result on reversed bounds, which
are silently normalized by swapping. -/
theorem claim_C4 (f : FReal → FReal) (nl nk : ℚ) (a0 b0 aEps : FReal) (aMS aML : Nat) :
    Simpson f a0 b0 aEps aMS = Simpson f b0 a0 aEps aMS ∧
    Lobatto f nl nk a0 b0 aEps aML = Lobatto f nl nk b0 a0 aEps aML := by
  by_cases h1 : b0.lt a0
  · have h2 : ¬a0.lt b0 := by
      simp only [FReal.lt] at h1 ⊢
      simp [FReal.blt_asymm h1]
    constructor
    · simp only [Simpson]
      rw [if_pos h1, if_pos h1, if_neg h2, if_neg h2]
    · simp only [Lobatto]
      rw [if_pos h1, if_pos h1, if_neg h2, if_neg h2]
  · by_cases h2 : a0.lt b0
    · constructor
      · simp only [Simpson]
        rw [if_pos h2, if_pos h2, if_neg h1, if_neg h1]
      · simp only [Lobatto]
        rw [if_pos h2, if_pos h2, if_neg h1, if_neg h1]
    · by_cases hn : a0 = FReal.nan ∨ b0 = FReal.nan
      · constructor
        · rw [Simpson_nan_bound hn, Simpson_nan_bound hn.symm]
        · rw [Lobatto_nan_bound hn, Lobatto_nan_bound hn.symm]
      · push_neg at hn
        simp only [FReal.lt, Bool.not_eq_true] at h1 h2
        have hab : a0 = b0 := FReal.eq_of_not_blt h2 h1 hn.1 hn.2
        subst hab
        exact ⟨rfl, rfl⟩

/-- C5 counterexample: at `max_depth = 0` a Simpson run on `[0, 1]` makes 5
integrand evaluations although the claimed bound is `2^0 = 1`, and a
Lobatto run makes 7 although the claimed bound is `6^0 = 1`. -/
theorem claim_C5_counterexample :
    SimpsonCount (fun _ => .fin 1) (.fin 0) (.fin 1) (.fin (1/1000)) 0 = 5 ∧
    LobattoCount (fun _ => .fin 1) (1/2) (3/4) (.fin 0) (.fin 1) (.fin (1/1000)) 0 = 7 ∧
    ¬(5 ≤ 2 ^ 0) ∧ ¬(7 ≤ 6 ^ 0) := by
  refine ⟨?_, ?_, by norm_num, by norm_num⟩
  · simp only [SimpsonCount, simpsonRecCountAux, sEvaluate, sError, FReal.maxF,
      numericEpsilon, numericInterval]
    norm_num [FReal.lt, FReal.blt, FReal.add_def, FReal.sub_def, FReal.mul_def,
      FReal.div_def, FReal.add, FReal.sub, FReal.mul, FReal.div, FReal.neg,
      FReal.abs_fin_nonneg, FReal.abs_fin_nonpos, FReal.isFinite, mkF_eq_fin_small]
  · simp only [LobattoCount, lobattoRecCountAux, lobAreaK, lobAreaL, lobH, lobMid,
      lobP2, lobP3, lobP4, lobP5, lobP6, numericEpsilon, numericInterval, FReal.maxF]
    norm_num [FReal.lt, FReal.blt, FReal.add_def, FReal.sub_def, FReal.mul_def,
      FReal.div_def, FReal.add, FReal.sub, FReal.mul, FReal.div, FReal.neg,
      FReal.abs_fin_nonneg, FReal.abs_fin_nonpos, FReal.isFinite, mkF_eq_fin_small]

/-- C5 amended: both integrators terminate for every input (they are total
functions of the model), and the total number of integrand evaluations is
at most `2^(clamped max_depth + 2) + 1` for Simpson (3 initial samples plus
two fresh samples per refinement step over a binary tree of depth at most
the clamped `max_depth`) and `6^(clamped max_depth + 1) + 1` for Lobatto
(2 initial samples plus five per step over a six-way tree). -/
theorem claim_C5 (f : FReal → FReal) (nl nk : ℚ) (a0 b0 aEps : FReal) (aMS aML : Nat) :
    SimpsonCount f a0 b0 aEps aMS ≤ 2 ^ (min aMS 22 + 2) + 1 ∧
    LobattoCount f nl nk a0 b0 aEps aML ≤ 6 ^ (min aML 8 + 1) + 1 := by
  constructor
  · simp only [SimpsonCount]
    set a := if b0.lt a0 then b0 else a0 with hA
    set b := if b0.lt a0 then a0 else b0 with hB
    have h4 : 4 ≤ 2 ^ (min aMS 22 + 2) := by
      calc (4:ℕ) = 2 ^ 2 := rfl
      _ ≤ 2 ^ (min aMS 22 + 2) := Nat.pow_le_pow_right (by norm_num) (by omega)
    split_ifs with hchk
    · omega
    · have hcnt := simpsonRecCountAux_le f (min aMS 22) (min aMS 22 + 1)
        ⟨a, f a, .fin 0⟩ (sEvaluate f ⟨a, f a, .fin 0⟩ ⟨b, f b, .fin 0⟩) ⟨b, f b, .fin 0⟩
        (FReal.maxF aEps (.fin 512 * numericEpsilon)) 0 (Nat.zero_le _) (by omega)
      rw [Nat.sub_zero] at hcnt
      omega
  · simp only [LobattoCount]
    set a := if b0.lt a0 then b0 else a0 with hA
    set b := if b0.lt a0 then a0 else b0 with hB
    have h6 : 6 ≤ 6 ^ (min aML 8 + 1) := by
      calc (6:ℕ) = 6 ^ 1 := (pow_one 6).symm
      _ ≤ 6 ^ (min aML 8 + 1) := Nat.pow_le_pow_right (by norm_num) (by omega)
    split_ifs with hchk
    · omega
    · have hcnt := lobattoRecCountAux_le f nl nk (FReal.maxF aEps numericEpsilon)
        (min aML 8) (min aML 8 + 1) ⟨a, f a⟩ ⟨b, f b⟩ 0 (Nat.zero_le _) (by omega)
      rw [Nat.sub_zero] at hcnt
      omega

/-- C6: out-of-range parameters are silently clamped: `Simpson` with
`max_depth > 22` equals `Simpson` with 22, `Lobatto` with `max_depth > 8`
equals `Lobatto` with 8, `Simpson` with epsilon below `512 * numeric_epsilon`
equals `Simpson` with that floor, and `Lobatto` with epsilon below
`numeric_epsilon` equals `Lobatto` with `numeric_epsilon`. -/
theorem claim_C6 (f : FReal → FReal) (nl nk : ℚ) (a0 b0 e0 e1 e2 : FReal)
    (aMS aML : Nat) (hMS : 22 < aMS) (hML : 8 < aML)
    (hE1 : e1.lt (.fin 512 * numericEpsilon)) (hE2 : e2.lt numericEpsilon) :
    (Simpson f a0 b0 e0 aMS = Simpson f a0 b0 e0 22) ∧
    (Lobatto f nl nk a0 b0 e0 aML = Lobatto f nl nk a0 b0 e0 8) ∧
    (Simpson f a0 b0 e1 aMS = Simpson f a0 b0 (.fin 512 * numericEpsilon) aMS) ∧
    (Lobatto f nl nk a0 b0 e2 aML = Lobatto f nl nk a0 b0 numericEpsilon aML) := by
  have hE1' : e1.blt (.fin 512 * numericEpsilon) = true := hE1
  have hE2' : e2.blt numericEpsilon = true := hE2
  refine ⟨?_, ?_, ?_, ?_⟩
  · simp only [Simpson]
    rw [show min aMS 22 = 22 by omega, show min 22 22 = 22 by omega]
  · simp only [Lobatto]
    rw [show min aML 8 = 8 by omega, show min 8 8 = 8 by omega]
  · simp only [Simpson, FReal.maxF]
    rw [if_pos hE1', ite_self]
  · simp only [Lobatto, FReal.maxF]
    rw [if_pos hE2', ite_self]

/-- C7: in every execution of `Simpson` and of `Lobatto`, every call of the
recursive lambda reachable from the initial call stays within the clamped
maximum depth, and a call takes its subdivision branch only when its
interval width is not below `numeric_interval` and the depth after
incrementing still fits the budget. -/
theorem claim_C7 :
    (∀ (f : FReal → FReal) (M : Nat) (s0 m0 e0 : SData) (eps0 : FReal)
        (s m e : SData) (eps : FReal) (d : Nat),
        SReach f M s0 m0 e0 eps0 s m e eps d →
        d ≤ M ∧ (sSubdivides f M s m e eps d →
          ¬(FReal.abs (e.x - s.x)).lt numericInterval ∧ d + 1 ≤ M)) ∧
    (∀ (f : FReal → FReal) (nl nk : ℚ) (eps : FReal) (M : Nat) (s0 e0 : LData)
        (s e : LData) (d : Nat),
        LReach f nl nk eps M s0 e0 s e d →
        d ≤ M ∧ (lSubdivides f nl nk eps M s e d →
          ¬(FReal.abs (lobH s e)).lt numericInterval ∧ d + 1 ≤ M)) := by
  constructor
  · intro f M s0 m0 e0 eps0 s m e eps d hreach
    have hgen : ∀ (s m e : SData) (eps : FReal) (d : Nat), sSubdivides f M s m e eps d →
        ¬(FReal.abs (e.x - s.x)).lt numericInterval ∧ d + 1 ≤ M := by
      intro s m e eps d hsub
      refine ⟨fun hw => hsub.1 (Or.inr hw), ?_⟩
      rcases not_or.mp hsub.2.2.2 with ⟨-, h⟩
      omega
    induction hreach with
    | root => exact ⟨Nat.zero_le M, hgen _ _ _ _ _⟩
    | left hr hsub ih => exact ⟨(hgen _ _ _ _ _ hsub).2, hgen _ _ _ _ _⟩
    | right hr hsub ih => exact ⟨(hgen _ _ _ _ _ hsub).2, hgen _ _ _ _ _⟩
  · intro f nl nk eps M s0 e0 s e d hreach
    have hgen : ∀ (s e : LData) (d : Nat), lSubdivides f nl nk eps M s e d →
        ¬(FReal.abs (lobH s e)).lt numericInterval ∧ d + 1 ≤ M := by
      intro s e d hsub
      refine ⟨fun hw => hsub.2.1 (Or.inl hw), ?_⟩
      rcases not_or.mp hsub.2.1 with ⟨-, h⟩
      omega
    induction hreach with
    | root => exact ⟨Nat.zero_le M, hgen _ _ _⟩
    | sub1 hr hsub ih => exact ⟨(hgen _ _ _ hsub).2, hgen _ _ _⟩
    | sub2 hr hsub ih => exact ⟨(hgen _ _ _ hsub).2, hgen _ _ _⟩
    | sub3 hr hsub ih => exact ⟨(hgen _ _ _ hsub).2, hgen _ _ _⟩
    | sub4 hr hsub ih => exact ⟨(hgen _ _ _ hsub).2, hgen _ _ _⟩
    | sub5 hr hsub ih => exact ⟨(hgen _ _ _ hsub).2, hgen _ _ _⟩
    | sub6 hr hsub ih => exact ⟨(hgen _ _ _ hsub).2, hgen _ _ _⟩

/-- Witness for C7 at the root call of each recursion, on a degenerate
state at depth 0 with budgets 22 and 8. -/
theorem claim_C7_witness :
    (0 ≤ 22 ∧ (sSubdivides (fun x => x) 22 ⟨.fin 0, .fin 0, .fin 0⟩ ⟨.fin 0, .fin 0, .fin 0⟩
        ⟨.fin 0, .fin 0, .fin 0⟩ (.fin 1) 0 →
      ¬(FReal.abs ((⟨.fin 0, .fin 0, .fin 0⟩ : SData).x -
          (⟨.fin 0, .fin 0, .fin 0⟩ : SData).x)).lt numericInterval ∧ 0 + 1 ≤ 22)) ∧
    (0 ≤ 8 ∧ (lSubdivides (fun x => x) (1/2) (3/4) (.fin 1) 8 ⟨.fin 0, .fin 0⟩
        ⟨.fin 0, .fin 0⟩ 0 →
      ¬(FReal.abs (lobH ⟨.fin 0, .fin 0⟩ ⟨.fin 0, .fin 0⟩)).lt numericInterval ∧ 0 + 1 ≤ 8)) :=
  ⟨claim_C7.1 (fun x => x) 22 ⟨.fin 0, .fin 0, .fin 0⟩ ⟨.fin 0, .fin 0, .fin 0⟩
      ⟨.fin 0, .fin 0, .fin 0⟩ (.fin 1) _ _ _ _ 0 SReach.root,
    claim_C7.2 (fun x => x) (1/2) (3/4) (.fin 1) 8 ⟨.fin 0, .fin 0⟩ ⟨.fin 0, .fin 0⟩
      _ _ 0 LReach.root⟩

/-- C1 counterexample: the step as the claim words it (forming both
half-interval estimates and accepting on error or exhausted depth, with no
finiteness check on the fresh samples) disagrees with the code on an
integrand that is `+∞` at the left quarter point with the depth budget
exhausted: the code returns NaN, the claimed step returns `+∞`. -/
theorem claim_C1_counterexample :
    simpsonRec (fun x => if x = .fin (1/4) then .inf true else .fin 1) 0
        ⟨.fin 0, .fin 1, .fin 0⟩ ⟨.fin (1/2), .fin 1, .fin 1⟩ ⟨.fin 1, .fin 1, .fin 0⟩
        (.fin (1/100)) 0 ≠
      simpsonClaimed (fun x => if x = .fin (1/4) then .inf true else .fin 1) 0
        ⟨.fin 0, .fin 1, .fin 0⟩ ⟨.fin (1/2), .fin 1, .fin 1⟩ ⟨.fin 1, .fin 1, .fin 0⟩
        (.fin (1/100)) 0 := by
  simp only [simpsonRec, simpsonClaimed, simpsonRecAux, simpsonClaimedAux, sEvaluate, sError,
    numericEpsilon, numericInterval, Nat.min_def, FReal.lt]
  norm_num [FReal.fin_add_fin, FReal.fin_add_inf, FReal.inf_add_fin, FReal.inf_add_inf,
    FReal.fin_sub_fin, FReal.fin_sub_inf, FReal.inf_sub_fin, FReal.inf_sub_inf,
    FReal.fin_mul_fin, FReal.fin_mul_inf, FReal.inf_mul_fin, FReal.inf_mul_inf,
    FReal.fin_div_fin, FReal.fin_div_inf, FReal.inf_div_fin, FReal.inf_div_inf,
    FReal.abs_fin_nonneg, FReal.abs_fin_nonpos, FReal.abs_inf, FReal.abs_nan,
    FReal.isFinite_fin, FReal.isFinite_inf, FReal.isFinite_nan,
    FReal.blt_fin_fin, FReal.blt_fin_inf, FReal.blt_inf_fin, FReal.blt_inf_inf,
    FReal.blt_nan_left, FReal.blt_nan_right, FReal.nan_add, FReal.add_nan,
    FReal.nan_mul, FReal.mul_nan, FReal.nan_div, FReal.div_nan, FReal.nan_sub,
    FReal.sub_nan, mkF_eq_fin_small]
  exact fun h => FReal.noConfusion h

/-- C1 (amended): the Simpson refinement step on a sub-interval with known
coarse estimate `m.area` computes exactly this: if the remaining epsilon is
below machine epsilon or the width is below `numeric_interval`, it returns
`m.area` unrefined; otherwise it forms the two half-interval estimates
using one new quarter-point sample each; if either new sample is
non-finite it returns NaN; otherwise with `error = (L + R - M)/15` it
returns `L + R + error` when `|error| < epsilon` or the depth budget is
exhausted, and otherwise the sum of the two recursive calls with
`epsilon/2` and `depth + 1`. -/
theorem claim_C1 (f : FReal → FReal) (M : Nat) (s m e : SData) (eps : FReal) (d : Nat) :
    simpsonRec f M s m e eps d =
      if eps.lt numericEpsilon ∨ (FReal.abs (e.x - s.x)).lt numericInterval then m.area
      else if (sEvaluate f s m).y.isFinite = false ∨ (sEvaluate f m e).y.isFinite = false then
        FReal.nan
      else if (FReal.abs (sError f s m e)).lt eps ∨ M < d + 1 then
        (sEvaluate f s m).area + (sEvaluate f m e).area + sError f s m e
      else
        simpsonRec f M s (sEvaluate f s m) m (eps / .fin 2) (d + 1) +
          simpsonRec f M m (sEvaluate f m e) e (eps / .fin 2) (d + 1) := by
  by_cases hd : d ≤ M
  · have h1 : M + 1 - d = (M - d) + 1 := by omega
    have h2 : M + 1 - (d + 1) = M - d := by omega
    simp only [simpsonRec, h1, h2]
    simp only [simpsonRecAux, sError]
  · have h0 : M + 1 - d = 0 := by omega
    have hacc : M < d + 1 := by omega
    simp only [simpsonRec, h0]
    simp only [simpsonRecAux, sError]
    split_ifs with hg hn ha
    · rfl
    · rfl
    · rfl
    · exact absurd (Or.inr hacc) ha

/-- C2 counterexample: the step as the claim words it (with no finiteness
test on the 7-point area) disagrees with the code on an integrand that is
identically `+∞` with the depth budget exhausted: the code returns NaN,
the claimed step returns the `+∞` 7-point area. -/
theorem claim_C2_counterexample :
    lobattoRec (fun _ => .inf true) (1/2) (3/4) (.fin (1/100)) 0
        ⟨.fin 0, .inf true⟩ ⟨.fin 2, .inf true⟩ 0 ≠
      lobattoClaimed (fun _ => .inf true) (1/2) (3/4) (.fin (1/100)) 0
        ⟨.fin 0, .inf true⟩ ⟨.fin 2, .inf true⟩ 0 := by
  simp only [lobattoRec, lobattoClaimed, lobattoRecAux, lobattoClaimedAux, lobAreaK, lobAreaL,
    lobH, lobMid, lobP2, lobP3, lobP4, lobP5, lobP6, numericEpsilon, numericInterval,
    Nat.min_def, FReal.lt]
  norm_num [FReal.fin_add_fin, FReal.fin_add_inf, FReal.inf_add_fin, FReal.inf_add_inf,
    FReal.fin_sub_fin, FReal.fin_sub_inf, FReal.inf_sub_fin, FReal.inf_sub_inf,
    FReal.fin_mul_fin, FReal.fin_mul_inf, FReal.inf_mul_fin, FReal.inf_mul_inf,
    FReal.fin_div_fin, FReal.fin_div_inf, FReal.inf_div_fin, FReal.inf_div_inf,
    FReal.abs_fin_nonneg, FReal.abs_fin_nonpos, FReal.abs_inf, FReal.abs_nan,
    FReal.isFinite_fin, FReal.isFinite_inf, FReal.isFinite_nan,
    FReal.blt_fin_fin, FReal.blt_fin_inf, FReal.blt_inf_fin, FReal.blt_inf_inf,
    FReal.blt_nan_left, FReal.blt_nan_right, FReal.nan_add, FReal.add_nan,
    FReal.nan_mul, FReal.mul_nan, FReal.nan_div, FReal.div_nan, FReal.nan_sub,
    FReal.sub_nan, mkF_eq_fin_small]
  exact fun h => FReal.noConfusion h

/-- C2 (amended): the Lobatto step on a sub-interval of half-width `h`
computes exactly this: it samples the five interior nodes at offsets
`±node_kronrod*h`, `±node_lobatto*h` and `0` from the midpoint and forms
the 7-point estimate with weights 77, 432, 625, 672 scaled by `h/1470`;
if that estimate is non-finite it returns NaN; if `|h|` is below
`numeric_interval` or the depth budget is exceeded it returns the 7-point
estimate with no error term; if the absolute difference with the 4-point
estimate (weights 1, 5, 5, 1 scaled by `h/6`) is below epsilon it returns
the 7-point estimate; and otherwise the sum of the six recursive calls on
the six contiguous sub-intervals, each with the same unhalved epsilon and
`depth + 1`. -/
theorem claim_C2 (f : FReal → FReal) (nl nk : ℚ) (eps : FReal) (M : Nat)
    (s e : LData) (d : Nat) :
    lobattoRec f nl nk eps M s e d =
      if (lobAreaK f nl nk s e).isFinite = false then FReal.nan
      else if (FReal.abs (lobH s e)).lt numericInterval ∨ M < d + 1 then lobAreaK f nl nk s e
      else if (FReal.abs (lobAreaK f nl nk s e - lobAreaL f nl s e)).lt eps then
        lobAreaK f nl nk s e
      else
        lobattoRec f nl nk eps M s (lobP2 f nk s e) (d + 1) +
          lobattoRec f nl nk eps M (lobP2 f nk s e) (lobP3 f nl s e) (d + 1) +
          lobattoRec f nl nk eps M (lobP3 f nl s e) (lobP4 f s e) (d + 1) +
          lobattoRec f nl nk eps M (lobP4 f s e) (lobP5 f nl s e) (d + 1) +
          lobattoRec f nl nk eps M (lobP5 f nl s e) (lobP6 f nk s e) (d + 1) +
          lobattoRec f nl nk eps M (lobP6 f nk s e) e (d + 1) := by
  by_cases hd : d ≤ M
  · have h1 : M + 1 - d = (M - d) + 1 := by omega
    have h2 : M + 1 - (d + 1) = M - d := by omega
    simp only [lobattoRec, h1, h2]
    simp only [lobattoRecAux]
  · have h0 : M + 1 - d = 0 := by omega
    have hacc : M < d + 1 := by omega
    simp only [lobattoRec, h0]
    simp only [lobattoRecAux]
    split_ifs with hn hg ha
    · rfl
    · rfl
    · rfl
    · exact absurd (Or.inr hacc) hg

/-- Witness for C6 at concrete out-of-range parameters: `max_depth` 30 and
9, epsilon `2^-120` (below both floors). -/
theorem claim_C6_witness :
    (Simpson (fun x => x) (.fin 0) (.fin 1) (.fin (1/10)) 30 =
      Simpson (fun x => x) (.fin 0) (.fin 1) (.fin (1/10)) 22) ∧
    (Lobatto (fun x => x) (1/2) (3/4) (.fin 0) (.fin 1) (.fin (1/10)) 9 =
      Lobatto (fun x => x) (1/2) (3/4) (.fin 0) (.fin 1) (.fin (1/10)) 8) ∧
    (Simpson (fun x => x) (.fin 0) (.fin 1) (.fin (1/2^120)) 30 =
      Simpson (fun x => x) (.fin 0) (.fin 1) (.fin 512 * numericEpsilon) 30) ∧
    (Lobatto (fun x => x) (1/2) (3/4) (.fin 0) (.fin 1) (.fin (1/2^120)) 9 =
      Lobatto (fun x => x) (1/2) (3/4) (.fin 0) (.fin 1) numericEpsilon 9) :=
  claim_C6 (fun x => x) (1/2) (3/4) (.fin 0) (.fin 1) (.fin (1/10)) (.fin (1/2^120))
    (.fin (1/2^120)) 30 9 (by norm_num) (by norm_num)
    (by simp only [numericEpsilon, FReal.lt]
        norm_num [FReal.fin_mul_fin, mkF_eq_fin_small, FReal.blt_fin_fin])
    (by simp only [numericEpsilon, FReal.lt]
        norm_num [FReal.blt_fin_fin])

/-- C8 (amended): for every integrand that is finite at the point `q`, of
moderate magnitude (bounds and value at most `2^16000`, so that no
intermediate arithmetic overflows), the degenerate call with both bounds
equal to `q` returns exactly 0, not NaN, for both `Simpson` and `Lobatto`.
Without the magnitude restriction the property fails: see the overflow
counterexample below with the finite constant integrand `2^16383`. -/
theorem claim_C8 (f : FReal → FReal) (q y : ℚ) (aEps : FReal) (dS dL : Nat) (nl nk : ℚ)
    (hf : f (.fin q) = .fin y) (hq : |q| ≤ (2:ℚ) ^ 16000) (hy : |y| ≤ (2:ℚ) ^ 16000) :
    Simpson f (.fin q) (.fin q) aEps dS = .fin 0 ∧
    Lobatto f nl nk (.fin q) (.fin q) aEps dL = .fin 0 := by
  have hmk : ∀ r : ℚ, |r| ≤ (2:ℚ) ^ 16012 → mkF r = .fin r := by
    intro r h
    refine mkF_eq_fin (h.trans ?_)
    rw [maxMagnitude_eq]
    exact pow_le_pow_right₀ one_le_two (by norm_num)
  have hq' : |q| ≤ (2:ℚ) ^ 16012 := hq.trans (pow_le_pow_right₀ one_le_two (by norm_num))
  have hco : ∀ (c r : ℚ), |r| ≤ (2:ℚ) ^ 16000 → |c| ≤ 4096 → |c * r| ≤ (2:ℚ) ^ 16012 := by
    intro c r hr hc
    rw [abs_mul]
    calc |c| * |r| ≤ 4096 * (2:ℚ) ^ 16000 :=
      mul_le_mul hc hr (abs_nonneg r) (by norm_num)
    _ = (2:ℚ) ^ 16012 := by
      rw [show (16012 : ℕ) = 12 + 16000 by norm_num, pow_add]
      norm_num
  have hqq : FReal.fin q + .fin q = .fin (2 * q) := by
    rw [FReal.fin_add_fin, show q + q = 2 * q by ring]
    exact hmk _ (hco 2 q hq (by norm_num))
  have hmid : FReal.fin (2 * q) / .fin 2 = .fin q := by
    rw [FReal.fin_div_fin, if_neg (by norm_num), show 2 * q / 2 = q by ring]
    exact hmk q hq'
  have hsub : FReal.fin q - .fin q = .fin 0 := by
    rw [FReal.fin_sub_fin, show q + -q = 0 by ring]
    exact hmk 0 (by norm_num)
  have habs0 : FReal.abs (.fin 0) = .fin 0 := FReal.abs_fin_nonneg le_rfl
  have hlt0 : (FReal.fin 0).lt numericInterval := by
    simp only [numericInterval, FReal.lt]
    norm_num [FReal.blt_fin_fin]
  have hymul : FReal.fin 4 * .fin y = .fin (4 * y) := by
    rw [FReal.fin_mul_fin]
    exact hmk _ (hco 4 y hy (by norm_num))
  have hy5 : FReal.fin y + .fin (4 * y) = .fin (5 * y) := by
    rw [FReal.fin_add_fin, show y + 4 * y = 5 * y by ring]
    exact hmk _ (hco 5 y hy (by norm_num))
  have hy6 : FReal.fin (5 * y) + .fin y = .fin (6 * y) := by
    rw [FReal.fin_add_fin, show 5 * y + y = 6 * y by ring]
    exact hmk _ (hco 6 y hy (by norm_num))
  have hz1 : FReal.fin 0 * .fin (6 * y) = .fin 0 := by
    rw [FReal.fin_mul_fin, zero_mul]
    exact hmk 0 (by norm_num)
  have hz2 : FReal.fin 0 / .fin 6 = .fin 0 := by
    rw [FReal.fin_div_fin, if_neg (by norm_num), zero_div]
    exact hmk 0 (by norm_num)
  have hev : sEvaluate f ⟨.fin q, .fin y, .fin 0⟩ ⟨.fin q, .fin y, .fin 0⟩ =
      ⟨.fin q, .fin y, .fin 0⟩ := by
    simp only [sEvaluate]
    rw [hqq, hmid, hf, hsub, habs0, hymul, hy5, hy6, hz1, hz2]
  constructor
  · simp only [Simpson]
    rw [ite_self, hf, hev, if_neg (by simp [FReal.isFinite_fin])]
    simp only [simpsonRec, Nat.sub_zero, simpsonRecAux]
    rw [hsub, habs0, if_pos (Or.inr hlt0)]
  · simp only [Lobatto]
    rw [ite_self, hf]
    have hnk0 : FReal.fin nk * .fin 0 = .fin 0 := by
      rw [FReal.fin_mul_fin, mul_zero]
      exact hmk 0 (by norm_num)
    have hnl0 : FReal.fin nl * .fin 0 = .fin 0 := by
      rw [FReal.fin_mul_fin, mul_zero]
      exact hmk 0 (by norm_num)
    have hh : lobH ⟨.fin q, .fin y⟩ ⟨.fin q, .fin y⟩ = .fin 0 := by
      simp only [lobH]
      rw [hsub, FReal.fin_div_fin, if_neg (by norm_num), zero_div]
      exact hmk 0 (by norm_num)
    have hmd : lobMid ⟨.fin q, .fin y⟩ ⟨.fin q, .fin y⟩ = .fin q := by
      simp only [lobMid]
      rw [hqq, hmid]
    have hsz : FReal.fin q - .fin 0 = .fin q := by
      rw [FReal.fin_sub_fin, show q + -0 = q by ring]
      exact hmk q hq'
    have haz : FReal.fin q + .fin 0 = .fin q := by
      rw [FReal.fin_add_fin, add_zero]
      exact hmk q hq'
    have hp2 : lobP2 f nk ⟨.fin q, .fin y⟩ ⟨.fin q, .fin y⟩ = ⟨.fin q, .fin y⟩ := by
      simp only [lobP2]
      rw [hmd, hh, hnk0, hsz, hf]
    have hp3 : lobP3 f nl ⟨.fin q, .fin y⟩ ⟨.fin q, .fin y⟩ = ⟨.fin q, .fin y⟩ := by
      simp only [lobP3]
      rw [hmd, hh, hnl0, hsz, hf]
    have hp4 : lobP4 f ⟨.fin q, .fin y⟩ ⟨.fin q, .fin y⟩ = ⟨.fin q, .fin y⟩ := by
      simp only [lobP4]
      rw [hmd, hf]
    have hp5 : lobP5 f nl ⟨.fin q, .fin y⟩ ⟨.fin q, .fin y⟩ = ⟨.fin q, .fin y⟩ := by
      simp only [lobP5]
      rw [hmd, hh, hnl0, haz, hf]
    have hp6 : lobP6 f nk ⟨.fin q, .fin y⟩ ⟨.fin q, .fin y⟩ = ⟨.fin q, .fin y⟩ := by
      simp only [lobP6]
      rw [hmd, hh, hnk0, haz, hf]
    have hW1 : FReal.fin y + .fin y = .fin (2 * y) := by
      rw [FReal.fin_add_fin, show y + y = 2 * y by ring]
      exact hmk _ (hco 2 y hy (by norm_num))
    have hW77 : FReal.fin (2 * y) * .fin 77 = .fin (154 * y) := by
      rw [FReal.fin_mul_fin, show 2 * y * 77 = 154 * y by ring]
      exact hmk _ (hco 154 y hy (by norm_num))
    have hW432 : FReal.fin (2 * y) * .fin 432 = .fin (864 * y) := by
      rw [FReal.fin_mul_fin, show 2 * y * 432 = 864 * y by ring]
      exact hmk _ (hco 864 y hy (by norm_num))
    have hW625 : FReal.fin (2 * y) * .fin 625 = .fin (1250 * y) := by
      rw [FReal.fin_mul_fin, show 2 * y * 625 = 1250 * y by ring]
      exact hmk _ (hco 1250 y hy (by norm_num))
    have hW672 : FReal.fin y * .fin 672 = .fin (672 * y) := by
      rw [FReal.fin_mul_fin, show y * 672 = 672 * y by ring]
      exact hmk _ (hco 672 y hy (by norm_num))
    have hWa : FReal.fin (154 * y) + .fin (864 * y) = .fin (1018 * y) := by
      rw [FReal.fin_add_fin, show 154 * y + 864 * y = 1018 * y by ring]
      exact hmk _ (hco 1018 y hy (by norm_num))
    have hWb : FReal.fin (1018 * y) + .fin (1250 * y) = .fin (2268 * y) := by
      rw [FReal.fin_add_fin, show 1018 * y + 1250 * y = 2268 * y by ring]
      exact hmk _ (hco 2268 y hy (by norm_num))
    have hWc : FReal.fin (2268 * y) + .fin (672 * y) = .fin (2940 * y) := by
      rw [FReal.fin_add_fin, show 2268 * y + 672 * y = 2940 * y by ring]
      exact hmk _ (hco 2940 y hy (by norm_num))
    have hdz : FReal.fin 0 / .fin 1470 = .fin 0 := by
      rw [FReal.fin_div_fin, if_neg (by norm_num), zero_div]
      exact hmk 0 (by norm_num)
    have hzW : FReal.fin 0 * .fin (2940 * y) = .fin 0 := by
      rw [FReal.fin_mul_fin, zero_mul]
      exact hmk 0 (by norm_num)
    have hK : lobAreaK f nl nk ⟨.fin q, .fin y⟩ ⟨.fin q, .fin y⟩ = .fin 0 := by
      simp only [lobAreaK, hp2, hp3, hp4, hp5, hp6, hh]
      rw [hW1, hW77, hW432, hW625, hW672, hWa, hWb, hWc, hdz, hzW]
    rw [if_neg (by simp [FReal.isFinite_fin])]
    simp only [lobattoRec, Nat.sub_zero, lobattoRecAux]
    rw [hK, hh, habs0, if_neg (by simp [FReal.isFinite_fin]), if_pos (Or.inl hlt0)]

/-- Witness for C8: the constant integrand 5 on the degenerate interval
`[1, 1]` gives exactly 0 through both integrators. -/
theorem claim_C8_witness :
    Simpson (fun _ => .fin 5) (.fin 1) (.fin 1) (.fin (1/1000)) 8 = .fin 0 ∧
    Lobatto (fun _ => .fin 5) (1/2) (3/4) (.fin 1) (.fin 1) (.fin (1/1000)) 2 = .fin 0 :=
  claim_C8 (fun _ => .fin 5) 1 5 (.fin (1/1000)) 8 2 (1/2) (3/4) rfl
    (by rw [abs_one]
        calc (1:ℚ) = 2 ^ 0 := (pow_zero 2).symm
        _ ≤ 2 ^ 16000 := pow_le_pow_right₀ one_le_two (by norm_num))
    (by rw [show |(5:ℚ)| = 5 by norm_num]
        calc (5:ℚ) ≤ 2 ^ 3 := by norm_num
        _ ≤ 2 ^ 16000 := pow_le_pow_right₀ one_le_two (by norm_num))

/-- If either entry guard of a Simpson refinement step fires, the step
returns the coarse estimate `m.area` at once. -/
theorem simpsonRec_guard (f : FReal → FReal) (M : Nat) (s m e : SData) (eps : FReal) (d : Nat)
    (hg : eps.lt numericEpsilon ∨ (FReal.abs (e.x - s.x)).lt numericInterval) :
    simpsonRec f M s m e eps d = m.area := by
  cases hfuel : M + 1 - d with
  | zero =>
    simp only [simpsonRec, hfuel, simpsonRecAux]
    rw [if_pos hg]
  | succ k =>
    simp only [simpsonRec, hfuel, simpsonRecAux]
    rw [if_pos hg]

/-- C8 counterexample: the claim fails for finite integrands of extreme
magnitude.  The constant integrand `2^16383` is finite at every point, yet
on the degenerate interval `[1, 1]` the coarse three-point area computes
`4 * 2^16383`, which overflows to `+∞`, and then `0 * ∞ = NaN`; the width
guard returns that area, so `Simpson` returns NaN, not 0. -/
theorem claim_C8_counterexample :
    (∀ x : FReal, ((fun _ => FReal.fin ((2:ℚ) ^ 16383)) x).isFinite = true) ∧
    Simpson (fun _ => FReal.fin ((2:ℚ) ^ 16383)) (.fin 1) (.fin 1) (.fin (1/1000)) 8 =
      FReal.nan := by
  refine ⟨fun _ => rfl, ?_⟩
  have hov : mkF (4 * (2:ℚ) ^ 16383) = .inf true := by
    refine mkF_eq_inf_true ?_
    rw [maxMagnitude_eq, show (4:ℚ) * 2 ^ 16383 = 2 ^ 16385 by
      rw [show (4:ℚ) = 2 ^ 2 by norm_num, ← pow_add]]
    exact pow_lt_pow_right₀ one_lt_two (by norm_num)
  have h2 : FReal.fin 1 + .fin 1 = .fin 2 := by
    rw [FReal.fin_add_fin]
    norm_num [mkF_eq_fin_small]
  have hmid : FReal.fin 2 / .fin 2 = .fin 1 := by
    rw [FReal.fin_div_fin, if_neg (by norm_num)]
    norm_num [mkF_eq_fin_small]
  have hw : FReal.fin 1 - .fin 1 = .fin 0 := by
    rw [FReal.fin_sub_fin]
    norm_num [mkF_eq_fin_small]
  have habs : FReal.abs (.fin 0) = .fin 0 := FReal.abs_fin_nonneg le_rfl
  have h4y : FReal.fin 4 * .fin ((2:ℚ) ^ 16383) = .inf true := by
    rw [FReal.fin_mul_fin, hov]
  have h0i : FReal.fin 0 * FReal.inf true = FReal.nan := by
    rw [FReal.fin_mul_inf, if_pos rfl]
  have hlt0 : (FReal.fin 0).lt numericInterval := by
    simp only [numericInterval, FReal.lt]
    norm_num [FReal.blt_fin_fin]
  have hev : sEvaluate (fun _ => FReal.fin ((2:ℚ) ^ 16383))
      ⟨.fin 1, .fin ((2:ℚ) ^ 16383), .fin 0⟩ ⟨.fin 1, .fin ((2:ℚ) ^ 16383), .fin 0⟩ =
      ⟨.fin 1, .fin ((2:ℚ) ^ 16383), FReal.nan⟩ := by
    simp only [sEvaluate]
    rw [h2, hmid, h4y, FReal.fin_add_inf, FReal.inf_add_fin, hw, habs, h0i, FReal.nan_div]
  simp only [Simpson]
  rw [ite_self]
  simp only [hev]
  rw [if_neg (by simp [FReal.isFinite_fin])]
  refine (simpsonRec_guard (fun _ => FReal.fin ((2:ℚ) ^ 16383)) (min 8 22) _ _ _ _ 0
    (Or.inr ?_)).trans rfl
  show (FReal.abs (FReal.fin 1 - FReal.fin 1)).lt numericInterval
  rw [hw, habs]
  exact hlt0

/-- C9 counterexample: the Simpson refinement step with the relative
acceptance test the claim describes disagrees with the code.  On an
integrand vanishing at both quarter points, with a coarse estimate whose
halves sum to zero, the code's absolute Lyness test accepts immediately
(returning `-1/15000`), while the relative test divides by the zero fine
estimate, rejects, and subdivides (returning `32/45`). -/
theorem claim_C9_counterexample :
    simpsonRec
        (fun x => if x = .fin (1/4) then .fin 0 else if x = .fin (3/4) then .fin 0 else .fin 1)
        1 ⟨.fin 0, .fin 1, .fin 0⟩ ⟨.fin (1/2), .fin (-1), .fin (1/1000)⟩
        ⟨.fin 1, .fin 1, .fin 0⟩ (.fin (1/100)) 0 ≠
      simpsonRel
        (fun x => if x = .fin (1/4) then .fin 0 else if x = .fin (3/4) then .fin 0 else .fin 1)
        1 ⟨.fin 0, .fin 1, .fin 0⟩ ⟨.fin (1/2), .fin (-1), .fin (1/1000)⟩
        ⟨.fin 1, .fin 1, .fin 0⟩ (.fin (1/100)) 0 := by
  simp only [simpsonRec, simpsonRel, simpsonRecAux, simpsonRelAux, sEvaluate, sError,
    numericEpsilon, numericInterval, FReal.lt]
  norm_num [FReal.fin_add_fin, FReal.fin_add_inf, FReal.inf_add_fin, FReal.inf_add_inf,
    FReal.fin_sub_fin, FReal.fin_sub_inf, FReal.inf_sub_fin, FReal.inf_sub_inf,
    FReal.fin_mul_fin, FReal.fin_mul_inf, FReal.inf_mul_fin, FReal.inf_mul_inf,
    FReal.fin_div_fin, FReal.fin_div_inf, FReal.inf_div_fin, FReal.inf_div_inf,
    FReal.abs_fin_nonneg, FReal.abs_fin_nonpos, FReal.abs_inf, FReal.abs_nan,
    FReal.isFinite_fin, FReal.isFinite_inf, FReal.isFinite_nan,
    FReal.blt_fin_fin, FReal.blt_fin_inf, FReal.blt_inf_fin, FReal.blt_inf_inf,
    FReal.blt_nan_left, FReal.blt_nan_right, FReal.nan_add, FReal.add_nan,
    FReal.nan_mul, FReal.mul_nan, FReal.nan_div, FReal.div_nan, FReal.nan_sub,
    FReal.sub_nan, mkF_eq_fin_small]

/-- C9 (corrected): the epsilon parameter of Simpson is a target ABSOLUTE
error.  The acceptance test compares the absolute Lyness estimate
`|(L + R - M) / 15|` against the sub-interval's epsilon budget: whenever
neither entry guard fires, both fresh samples are finite and that absolute
estimate is below epsilon, the refinement step accepts and returns the
error-corrected fine estimate.  (The relative variant of the test exists
in the source only as commented-out code.) -/
theorem claim_C9 (f : FReal → FReal) (M : Nat) (s m e : SData) (eps : FReal) (d : Nat)
    (hg : ¬(eps.lt numericEpsilon ∨ (FReal.abs (e.x - s.x)).lt numericInterval))
    (hl : (sEvaluate f s m).y.isFinite = true)
    (hr : (sEvaluate f m e).y.isFinite = true)
    (hacc : (FReal.abs (sError f s m e)).lt eps) :
    simpsonRec f M s m e eps d =
      (sEvaluate f s m).area + (sEvaluate f m e).area + sError f s m e := by
  have hl' : ¬(sEvaluate f s m).y.isFinite = false := by simp [hl]
  have hr' : ¬(sEvaluate f m e).y.isFinite = false := by simp [hr]
  cases hfuel : M + 1 - d with
  | zero =>
    simp only [simpsonRec, hfuel, simpsonRecAux]
    split_ifs with hN hA
    · rcases hN with h | h
      · exact absurd h hl'
      · exact absurd h hr'
    · simp only [sError]
    · simp only [sError] at hacc
      exact absurd (Or.inl hacc) hA
  | succ k =>
    simp only [simpsonRec, hfuel, simpsonRecAux]
    split_ifs with hN hA
    · rcases hN with h | h
      · exact absurd h hl'
      · exact absurd h hr'
    · simp only [sError]
    · simp only [sError] at hacc
      exact absurd (Or.inl hacc) hA

/-- Witness for C9 at the concrete accepting input of the counterexample:
the absolute Lyness estimate `1/15000` is below the budget `1/100`, so the
step accepts. -/
theorem claim_C9_witness :
    simpsonRec
        (fun x => if x = .fin (1/4) then .fin 0 else if x = .fin (3/4) then .fin 0 else .fin 1)
        1 ⟨.fin 0, .fin 1, .fin 0⟩ ⟨.fin (1/2), .fin (-1), .fin (1/1000)⟩
        ⟨.fin 1, .fin 1, .fin 0⟩ (.fin (1/100)) 0 =
      (sEvaluate
          (fun x => if x = .fin (1/4) then .fin 0 else if x = .fin (3/4) then .fin 0 else .fin 1)
          ⟨.fin 0, .fin 1, .fin 0⟩ ⟨.fin (1/2), .fin (-1), .fin (1/1000)⟩).area +
        (sEvaluate
          (fun x => if x = .fin (1/4) then .fin 0 else if x = .fin (3/4) then .fin 0 else .fin 1)
          ⟨.fin (1/2), .fin (-1), .fin (1/1000)⟩ ⟨.fin 1, .fin 1, .fin 0⟩).area +
        sError
          (fun x => if x = .fin (1/4) then .fin 0 else if x = .fin (3/4) then .fin 0 else .fin 1)
          ⟨.fin 0, .fin 1, .fin 0⟩ ⟨.fin (1/2), .fin (-1), .fin (1/1000)⟩
          ⟨.fin 1, .fin 1, .fin 0⟩ :=
  claim_C9 _ 1 _ _ _ _ 0
    (by simp only [numericEpsilon, numericInterval, FReal.lt]
        norm_num [FReal.fin_sub_fin, FReal.abs_fin_nonneg, FReal.blt_fin_fin,
          mkF_eq_fin_small])
    (by simp only [sEvaluate]
        norm_num [FReal.fin_add_fin, FReal.fin_div_fin, FReal.fin_sub_fin, FReal.fin_mul_fin,
          FReal.abs_fin_nonneg, FReal.isFinite_fin, mkF_eq_fin_small])
    (by simp only [sEvaluate]
        norm_num [FReal.fin_add_fin, FReal.fin_div_fin, FReal.fin_sub_fin, FReal.fin_mul_fin,
          FReal.abs_fin_nonneg, FReal.isFinite_fin, mkF_eq_fin_small])
    (by simp only [sError, sEvaluate, FReal.lt]
        norm_num [FReal.fin_add_fin, FReal.fin_div_fin, FReal.fin_sub_fin, FReal.fin_mul_fin,
          FReal.abs_fin_nonneg, FReal.abs_fin_nonpos, FReal.blt_fin_fin, mkF_eq_fin_small])

/-- C10: a Lobatto recursion step decides failure solely on the finiteness
of the combined 7-point area.  If the 7-point area is non-finite the step
returns NaN; if it is finite and any local stop condition holds (width
below `numeric_interval`, depth exceeded, or acceptance), the step returns
the 7-point area itself — never NaN — with no per-sample finiteness test
on the five interior nodes anywhere. -/
theorem claim_C10 (f : FReal → FReal) (nl nk : ℚ) (eps : FReal) (M : Nat)
    (s e : LData) (d : Nat) :
    ((lobAreaK f nl nk s e).isFinite = false → lobattoRec f nl nk eps M s e d = FReal.nan) ∧
    ((lobAreaK f nl nk s e).isFinite = true →
      ((FReal.abs (lobH s e)).lt numericInterval ∨ M < d + 1 ∨
        (FReal.abs (lobAreaK f nl nk s e - lobAreaL f nl s e)).lt eps) →
      lobattoRec f nl nk eps M s e d = lobAreaK f nl nk s e ∧
        lobattoRec f nl nk eps M s e d ≠ FReal.nan) := by
  constructor
  · intro hnf
    cases hfuel : M + 1 - d with
    | zero =>
      simp only [lobattoRec, hfuel, lobattoRecAux]
      rw [if_pos hnf]
    | succ k =>
      simp only [lobattoRec, hfuel, lobattoRecAux]
      rw [if_pos hnf]
  · intro hf hstop
    have hnf' : ¬((lobAreaK f nl nk s e).isFinite = false) := by simp [hf]
    have hne : lobAreaK f nl nk s e ≠ FReal.nan := by
      intro h
      rw [h, FReal.isFinite_nan] at hf
      exact Bool.noConfusion hf
    have heq : lobattoRec f nl nk eps M s e d = lobAreaK f nl nk s e := by
      by_cases hwd : (FReal.abs (lobH s e)).lt numericInterval ∨ M < d + 1
      · cases hfuel : M + 1 - d with
        | zero =>
          simp only [lobattoRec, hfuel, lobattoRecAux]
          rw [if_neg hnf', if_pos hwd]
        | succ k =>
          simp only [lobattoRec, hfuel, lobattoRecAux]
          rw [if_neg hnf', if_pos hwd]
      · have h3 : (FReal.abs (lobAreaK f nl nk s e - lobAreaL f nl s e)).lt eps := by
          rcases hstop with h | h | h
          · exact absurd (Or.inl h) hwd
          · exact absurd (Or.inr h) hwd
          · exact h
        cases hfuel : M + 1 - d with
        | zero =>
          simp only [lobattoRec, hfuel, lobattoRecAux]
          rw [if_neg hnf', if_neg hwd, if_pos h3]
        | succ k =>
          simp only [lobattoRec, hfuel, lobattoRecAux]
          rw [if_neg hnf', if_neg hwd, if_pos h3]
    exact ⟨heq, heq ▸ hne⟩

/-- Witness for C10: the constant integrand `maxMagnitude` is finite at
every sample point, yet on `[0, 2]` the weighted 7-point sum overflows to
infinity, the finiteness test on the combined area fires, and the step
returns NaN. -/
theorem claim_C10_witness :
    (lobAreaK (fun _ => FReal.fin maxMagnitude) (1/2) (3/4)
        ⟨.fin 0, .fin maxMagnitude⟩ ⟨.fin 2, .fin maxMagnitude⟩).isFinite = false ∧
    (∀ x : FReal, ((fun _ => FReal.fin maxMagnitude) x).isFinite = true) ∧
    lobattoRec (fun _ => FReal.fin maxMagnitude) (1/2) (3/4) (.fin 1) 2
      ⟨.fin 0, .fin maxMagnitude⟩ ⟨.fin 2, .fin maxMagnitude⟩ 0 = FReal.nan := by
  have hMM : mkF (maxMagnitude + maxMagnitude) = .inf true :=
    mkF_eq_inf_true (by linarith [maxMagnitude_pos])
  have hMM2 : mkF (maxMagnitude * 672) = .inf true :=
    mkF_eq_inf_true ((lt_mul_iff_one_lt_right maxMagnitude_pos).mpr (by norm_num))
  have hnf : (lobAreaK (fun _ => FReal.fin maxMagnitude) (1/2) (3/4)
      ⟨.fin 0, .fin maxMagnitude⟩ ⟨.fin 2, .fin maxMagnitude⟩).isFinite = false := by
    simp only [lobAreaK, lobH, lobMid, lobP2, lobP3, lobP4, lobP5, lobP6]
    norm_num [FReal.fin_add_fin, FReal.fin_add_inf, FReal.inf_add_fin, FReal.inf_add_inf,
      FReal.fin_sub_fin, FReal.fin_sub_inf, FReal.inf_sub_fin, FReal.inf_sub_inf,
      FReal.fin_mul_fin, FReal.fin_mul_inf, FReal.inf_mul_fin, FReal.inf_mul_inf,
      FReal.fin_div_fin, FReal.fin_div_inf, FReal.inf_div_fin, FReal.inf_div_inf,
      FReal.isFinite_fin, FReal.isFinite_inf, FReal.isFinite_nan,
      mkF_eq_fin_small, hMM, hMM2]
  exact ⟨hnf, fun _ => rfl,
    (claim_C10 (fun _ => FReal.fin maxMagnitude) (1/2) (3/4) (.fin 1) 2
      ⟨.fin 0, .fin maxMagnitude⟩ ⟨.fin 2, .fin maxMagnitude⟩ 0).1 hnf⟩

end Quadrature
